/-
Verification of the CGS/CGR contact-graph scheduling and routing engine.

This file gives a shallow embedding, in Lean 4, of the parts of the Python
source (src/routing.py, src/node.py, src/bundles.py, src/scheduling.py)
that the verified properties are about, together with theorems settling
those properties.

Modelling conventions:
* Python ints/floats for times, rates, sizes and volumes are modelled as ℚ.
* `sys.maxsize` is the literal 2^63 - 1, as on CPython/64-bit.
* A Contact's uid, the Python string f"{frm}_{to}_{start}", is modelled as
  the triple (frm, to, start), which carries the same information.
* Python object identity is approximated by uid equality; lists of Contact
  references held in `suppressed_next_hop` and in Bundle routes are
  modelled as lists of uids.
* Mutation is modelled by explicit state passing: functions that mutate a
  contact list return the updated list.
* Fallible code (`raise ValueError`, KeyError, IndexError) is modelled
  with `Except`/`Option`.
-/
import Mathlib

namespace Sim

/-- Python `sys.maxsize` on a 64-bit build, used by the source as "infinity". -/
def sysMaxsize : ℚ := 2 ^ 63 - 1

/-- Per-priority mutable available volume of a contact:
`mav[0]` = bulk, `mav[1]` = normal, `mav[2]` = expedited
(routing.py `__post_init__`: `self.mav = [self.volume, self.volume, self.volume]`). -/
structure Mav where
  m0 : ℚ
  m1 : ℚ
  m2 : ℚ
  deriving DecidableEq, Repr

/-- `mav[p]` for `p ∈ {0,1,2}`.  Out-of-range indices are never reached in
the modelled code paths (node.py `_contact_resource_update` raises
`ValueError` first); they are mapped to 0 here. -/
def Mav.get (m : Mav) (p : ℤ) : ℚ :=
  if p = 0 then m.m0 else if p = 1 then m.m1 else if p = 2 then m.m2 else 0

/-- Contact uid: the Python string `f"{frm}_{to}_{start}"` carries exactly
this data (routing.py `Contact.__post_init__`). -/
structure CUid where
  frm : Int
  toN : Int
  start : ℚ
  deriving DecidableEq, Repr

/-- The `Contact` dataclass of routing.py.  `stop` models the Python field
`end` (a Lean keyword).  `volume` and `mav` are the derived fields set in
`__post_init__`; `pred` models `predecessor` (unset = the Python initial
value `0`, which is never dereferenced before being overwritten). -/
structure Contact where
  frm : Int
  toN : Int
  toEid : Int
  start : ℚ
  stop : ℚ
  rate : ℚ
  confidence : ℚ
  owlt : ℚ
  volume : ℚ
  mav : Mav
  arrivalTime : ℚ
  visited : Bool
  visitedNodes : List Int
  pred : Option CUid
  suppressed : Bool
  suppressedNextHop : List CUid
  deriving DecidableEq, Repr

/-- Derived uid, as the Python `uid` property. -/
def Contact.uid (c : Contact) : CUid := ⟨c.frm, c.toN, c.start⟩

/-- Constructor semantics of `Contact(frm, to, to_eid, start, end, rate,
confidence, owlt)` including `__post_init__`:
`volume = rate * (end - start)`, `mav = [volume, volume, volume]`, and
`if not self.to_eid: self.to_eid = self.to` (note: Python truthiness, so a
`to_eid` of 0 is also replaced by `to`).  Search/management fields take
their dataclass defaults. -/
def mkContact (frm toNode : Int) (toEid : Option Int) (start stop rate confidence owlt : ℚ) :
    Contact :=
  { frm := frm
    toN := toNode
    toEid := match toEid with
      | none => toNode
      | some e => if e = 0 then toNode else e
    start := start
    stop := stop
    rate := rate
    confidence := confidence
    owlt := owlt
    volume := rate * (stop - start)
    mav := ⟨rate * (stop - start), rate * (stop - start), rate * (stop - start)⟩
    arrivalTime := sysMaxsize
    visited := false
    visitedNodes := []
    pred := none
    suppressed := false
    suppressedNextHop := [] }

/-- `clear_dijkstra_area` of routing.py. -/
def Contact.clearDijkstraArea (c : Contact) : Contact :=
  { c with arrivalTime := sysMaxsize, visited := false, pred := none, visitedNodes := [] }

/-- `clear_management_area` of routing.py. -/
def Contact.clearManagementArea (c : Contact) : Contact :=
  { c with suppressed := false, suppressedNextHop := [] }

/-- The inner loop of node.py `Node._contact_resource_update`:
`for p in range(priority+1): contact.mav[p] -= size`, for a valid
priority in {0,1,2}. -/
def Mav.dec (m : Mav) (priority : ℤ) (size : ℚ) : Mav :=
  if priority = 0 then { m with m0 := m.m0 - size }
  else if priority = 1 then { m with m0 := m.m0 - size, m1 := m.m1 - size }
  else { m0 := m.m0 - size, m1 := m.m1 - size, m2 := m.m2 - size }

/-- node.py `Node._contact_resource_update` applied to a single contact
of the passed list. -/
def contactMavUpdate (c : Contact) (size : ℚ) (priority : ℤ) : Contact :=
  { c with mav := c.mav.dec priority size }

/-- node.py `Node._contact_resource_update`.  The Python method receives a
list of Contact objects that are members of the node's contact plan and
mutates them in place; here the plan is passed explicitly and the
contacts to update are named by their positions `idxs` in the plan.
Raises `ValueError` when the priority is outside {0,1,2}; the raise
happens before any mutation, so on error the plan is untouched. -/
def contactResourceUpdate (plan : List Contact) (idxs : List Nat) (size : ℚ)
    (priority : ℤ) : Except String (List Contact) :=
  if priority = 0 ∨ priority = 1 ∨ priority = 2 then
    .ok (plan.mapIdx fun i c =>
      if i ∈ idxs then contactMavUpdate c size priority else c)
  else
    .error "Bundle priority not defined in valid range"

/-- One reservation (positive size) or rollback (negative size, as issued
by node.py `_return_bundle_to_buffer`) applied to a single contact through
`_contact_resource_update`; `ValueError` propagates. -/
def applyResourceOps (c : Contact) : List (ℤ × ℚ) → Except String Contact
  | [] => .ok c
  | (priority, size) :: rest =>
    if priority = 0 ∨ priority = 1 ∨ priority = 2 then
      applyResourceOps (contactMavUpdate c size priority) rest
    else
      .error "Bundle priority not defined in valid range"

/-- Net reserved size at exactly priority `q` over a history of
reservation/rollback operations. -/
def netAt (q : ℤ) (ops : List (ℤ × ℚ)) : ℚ :=
  ((ops.filter (fun op => op.1 = q)).map Prod.snd).sum

/-- The `Bundle` dataclass of bundles.py.  The assigned route is a list of
Contact uids (node.py stores `[contact.uid for contact in route.hops]`);
`age` models the `_age` field maintained by `update_age`. -/
structure Bundle where
  src : Int
  dst : Int
  targetId : Int
  createdAt : ℚ
  size : ℚ
  deadline : ℚ
  priority : ℤ
  critical : Bool
  fragment : Bool
  obeyRoute : Bool
  previousNode : Option Int
  hopCount : ℕ
  route : List CUid
  age : ℚ
  deriving DecidableEq, Repr

/-- The skip conditions of the relaxation loop of routing.py
`cgr_dijkstra` (the `continue` tests over `contact_plan_hash[current.to]`),
in source order: membership of the current contact's
`suppressed_next_hop`, `suppressed`, `visited`, receiver already on the
path (`visited_nodes`), start at or past the deadline, contact ending
before arrival plus transfer time (`transfer_time = size / contact.rate`;
Python raises ZeroDivisionError on a zero rate, so theorems assume a
positive rate), insufficient static `volume`, and being the reverse of
the current contact. -/
def dijkstraSkip (current contact : Contact) (deadline size : ℚ) : Prop :=
  contact.uid ∈ current.suppressedNextHop ∨
  contact.suppressed = true ∨
  contact.visited = true ∨
  contact.toN ∈ current.visitedNodes ∨
  deadline ≤ contact.start ∨
  contact.stop ≤ current.arrivalTime + size / contact.rate ∨
  contact.volume < size ∨
  (current.frm = contact.toN ∧ current.toN = contact.frm)

instance (current contact : Contact) (deadline size : ℚ) :
    Decidable (dijkstraSkip current contact deadline size) := by
  unfold dijkstraSkip
  infer_instance

/-- The `arrvl_time` computation of `cgr_dijkstra`, written in the source
as an if/else comparison of `contact.start` against the current arrival
time (equivalent to `max(current.arrival_time, contact.start) + owlt`). -/
def arrvlTimeOf (current c : Contact) : ℚ :=
  if c.start < current.arrivalTime then current.arrivalTime + c.owlt
  else c.start + c.owlt

/-- One relaxation step of routing.py `cgr_dijkstra` for a single
outgoing contact: skip, or compute the arrival time and, when strictly
better, update the contact's arrival time, predecessor and visited-node
list, recording it as the final contact when its receiving endpoint is
the destination and the arrival improves on the best known final arrival
`e`. -/
def relaxOne (current : Contact) (dest : Int) (deadline size : ℚ)
    (c : Contact) (fin : Option CUid) (e : ℚ) : Contact × Option CUid × ℚ :=
  if dijkstraSkip current c deadline size then (c, fin, e)
  else
    let arrvlTime := arrvlTimeOf current c
    if arrvlTime < c.arrivalTime then
      let c' := { c with
        arrivalTime := arrvlTime
        pred := some current.uid
        visitedNodes := current.visitedNodes ++ [c.toN] }
      if c.toEid = dest ∧ arrvlTime < e then (c', some c'.uid, arrvlTime)
      else (c', fin, e)
    else (c, fin, e)

/-- The relaxation loop over `contact_plan_hash[current.to]` (the plan
contacts whose sender is the current contact's receiver, in plan order),
threading the best-final-contact accumulator through the loop. -/
def relaxAll (current : Contact) (dest : Int) (deadline size : ℚ) :
    List Contact → Option CUid → ℚ → List Contact × Option CUid × ℚ
  | [], fin, e => ([], fin, e)
  | c :: rest, fin, e =>
    if c.frm = current.toN then
      let r := relaxOne current dest deadline size c fin e
      let rr := relaxAll current dest deadline size rest r.2.1 r.2.2
      (r.1 :: rr.1, rr.2)
    else
      let rr := relaxAll current dest deadline size rest fin e
      (c :: rr.1, rr.2)

/-- `current.visited = True` written back into the plan through object
identity (modelled by uid; for a top-level root contact no plan entry
matches and the write only affects the root object, which is never
iterated again). -/
def markVisited (plan : List Contact) (u : CUid) : List Contact :=
  plan.map fun c => if c.uid = u then { c with visited := true } else c

/-- The next-contact selection loop of routing.py `cgr_dijkstra`: among
unvisited, unsuppressed contacts with arrival time not beyond the best
final arrival `e`, pick the first with strictly smallest arrival time. -/
def selectNextAux (e : ℚ) : List Contact → ℚ → Option Contact → Option Contact
  | [], _, best => best
  | c :: rest, earliest, best =>
    if c.visited = true ∨ c.suppressed = true then selectNextAux e rest earliest best
    else if e < c.arrivalTime then selectNextAux e rest earliest best
    else if c.arrivalTime < earliest then selectNextAux e rest c.arrivalTime (some c)
    else selectNextAux e rest earliest best

/-- `contact_selection` as inlined in `cgr_dijkstra` (initial earliest
arrival time `sys.maxsize`, no candidate). -/
def selectNext (plan : List Contact) (e : ℚ) : Option Contact :=
  selectNextAux e plan sysMaxsize none

/-- The main `while True` loop of `cgr_dijkstra`.  The fuel argument
models the implicit termination measure (every iteration marks a fresh
contact visited, so `plan.length + 1` iterations suffice; exhausting the
fuel is unreachable for that choice and returns the state reached). -/
def dijkstraLoop (dest : Int) (deadline size : ℚ) :
    Nat → Contact → List Contact → Option CUid → ℚ → List Contact × Option CUid
  | 0, _, plan, fin, _ => (plan, fin)
  | fuel + 1, current, plan, fin, e =>
    let r := relaxAll current dest deadline size plan fin e
    let plan2 := markVisited r.1 current.uid
    match selectNext plan2 r.2.2 with
    | none => (plan2, r.2.1)
    | some next => dijkstraLoop dest deadline size fuel next plan2 r.2.1 r.2.2

/-- Object lookup by uid in the plan, modelling a Python reference. -/
def planLookup (plan : List Contact) (u : CUid) : Option Contact :=
  plan.find? fun c => decide (c.uid = u)

/-- The route reconstruction loop of `cgr_dijkstra`: walk the
`predecessor` chain from the final contact back to the root contact,
prepending hops.  Fuel models the implicit termination measure; `none`
models the unreachable failure cases (an unset predecessor is the Python
integer 0, whose dereference would raise). -/
def chainHops (plan : List Contact) (rootUid : CUid) :
    Nat → CUid → List Contact → Option (List Contact)
  | 0, _, _ => none
  | fuel + 1, u, acc =>
    if u = rootUid then some acc
    else
      match planLookup plan u with
      | none => none
      | some c =>
        match c.pred with
        | none => none
        | some pu => chainHops plan rootUid fuel pu (c :: acc)

/-- routing.py `Route.best_delivery_time`:
`bdt = max(bdt + c.owlt, c.start + c.owlt)` folded over the hops from 0. -/
def bdtOfHops (hops : List Contact) : ℚ :=
  hops.foldl (fun bdt c => max (bdt + c.owlt) (c.start + c.owlt)) 0

/-- `min_succ_stop_time`: the minimum contact end time over a hop
suffix, starting from `sys.maxsize` (routing.py `refresh_metrics`). -/
def suffixMinStop (hops : List Contact) : ℚ :=
  hops.foldl (fun m c => min m c.stop) sysMaxsize

/-- The per-hop loop of routing.py `Route.refresh_metrics` after the
first hop: first-byte transmission time `max(start, prev_last_byte_arr)`,
effective stop time over the remaining suffix, and the running minimum
effective volume limit (`min(effective_duration * rate, c.volume)`).
The Python source locates each hop's suffix with `hops.index(c)`
(first field-equal element); this model uses the positional suffix. -/
def refreshVolumeFrom : List Contact → ℚ → ℚ → ℚ
  | [], _, acc => acc
  | c :: rest, prevLba, acc =>
    let fbt := max c.start prevLba
    let lba := fbt + c.owlt
    let stopTime := min c.stop (suffixMinStop (c :: rest))
    let evl := min ((stopTime - fbt) * c.rate) c.volume
    refreshVolumeFrom rest lba (min acc evl)

/-- routing.py `Route.refresh_metrics` (with `bundle_tx_time = 0`): the
route volume as the minimum effective volume limit over the hops; the
first hop transmits at its own start time. -/
def refreshVolume (hops : List Contact) : ℚ :=
  match hops with
  | [] => sysMaxsize
  | c :: rest =>
    let fbt := c.start
    let lba := fbt + c.owlt
    let stopTime := min c.stop (suffixMinStop (c :: rest))
    let evl := min ((stopTime - fbt) * c.rate) c.volume
    refreshVolumeFrom rest lba (min sysMaxsize evl)

/-- routing.py `Route`: an ordered list of hops with the volume field
maintained by `refresh_metrics`. -/
structure Route where
  hops : List Contact
  volume : ℚ
  deriving DecidableEq, Repr

/-- A `Route` built by appending each hop in turn (`Route(c)` plus
`append`); every append re-runs `refresh_metrics`, so the resulting
volume is that of the full hop list. -/
def routeOfHops (hops : List Contact) : Route :=
  ⟨hops, refreshVolume hops⟩

/-- routing.py `Route.confidence`: product of hop confidences. -/
def Route.confidence (r : Route) : ℚ :=
  (r.hops.map Contact.confidence).prod

/-- `Route.best_delivery_time` of a route value. -/
def Route.bdt (r : Route) : ℚ := bdtOfHops r.hops

/-- routing.py `Route.next_node`. -/
def Route.nextNode (r : Route) : Option Int :=
  r.hops.head?.map Contact.toN

/-- routing.py `Route.__lt__`: earliest best delivery time, then larger
volume, then higher (or equal) confidence. -/
def routeLt (a b : Route) : Bool :=
  if a.bdt < b.bdt then true
  else if a.bdt = b.bdt ∧ b.volume < a.volume then true
  else if a.bdt = b.bdt ∧ a.volume = b.volume ∧ b.confidence ≤ a.confidence then true
  else false

/-- routing.py `cgr_dijkstra`: the guard returning `None` when the root's
receiving node is not a receiver in the contact plan, the per-invocation
clearing of every contact other than the root object, the seeding of the
root's visited-node list, the main loop, and the predecessor-chain route
reconstruction. -/
def cgrDijkstra (rootContact : Contact) (destination : Int) (plan : List Contact)
    (deadline : ℚ) (size : ℚ) : Option Route :=
  if rootContact.toN ∉ plan.map Contact.toN then none
  else
    let plan0 := plan.map fun c =>
      if c.uid = rootContact.uid then c else c.clearDijkstraArea
    let root := if rootContact.toN ∈ rootContact.visitedNodes then rootContact
      else { rootContact with
              visitedNodes := rootContact.visitedNodes ++ [rootContact.toN] }
    let r := dijkstraLoop destination deadline size (plan0.length + 1) root plan0
      none sysMaxsize
    match r.2 with
    | none => none
    | some finUid =>
      match chainHops r.1 root.uid (r.1.length + 1) finUid [] with
      | none => none
      | some hops => some (routeOfHops hops)

/-- The immutable routing-relevant fields of a contact (sender, receiver,
receiver endpoint); no operation of the search mutates them. -/
structure CStat where
  frm : Int
  toN : Int
  toEid : Int
  deriving DecidableEq, Repr

/-- Static projection of a contact. -/
def Contact.stat (c : Contact) : CStat := ⟨c.frm, c.toN, c.toEid⟩

/-- Node `n` is reachable from `src` by chaining contacts of the plan
(each hop's sender is the previous hop's receiver). -/
inductive NodeReach (plan : List CStat) (src : Int) : Int → Prop
  | base : NodeReach plan src src
  | step (c : CStat) (hc : c ∈ plan) (h : NodeReach plan src c.frm) :
      NodeReach plan src c.toN

/-- A contact path from `src` to endpoint `dest` exists in the plan. -/
def ReachesEid (plan : List CStat) (src dest : Int) : Prop :=
  ∃ c ∈ plan, c.toEid = dest ∧ NodeReach plan src c.frm

/-- Outcome of the per-bundle dispatch in node.py
`_node_contact_procedure`. -/
inductive FwdAction
  | sendBundle
  | returnToBuffer
  deriving DecidableEq, Repr

/-- The per-bundle dispatch section of node.py `_node_contact_procedure`,
from popping a bundle off the outbound queue to handing it to
`_bundle_send`: the bundle is returned to the buffer when the remaining
contact time cannot fit it (`contact.end - now < size/rate`), when it has
no route, when the next hop's receiver is not the current neighbour, or
when it is MSR-pinned (`obey_route`) and the first route entry is not
this contact's uid; otherwise it is sent.  A route head absent from the
node's `_contact_plan_dict` raises KeyError in Python, modelled as
`none`. -/
def bundleForwardAction (contact : Contact) (tNow : ℚ) (cpDict : List Contact)
    (bundle : Bundle) : Option FwdAction :=
  let sendTime := bundle.size / contact.rate
  if contact.stop - tNow < sendTime then some .returnToBuffer
  else
    match bundle.route with
    | [] => some .returnToBuffer
    | h :: _ =>
      match planLookup cpDict h with
      | none => none
      | some nextHop =>
        if nextHop.toN ≠ contact.toN then some .returnToBuffer
        else if bundle.obeyRoute = true ∧ h ≠ contact.uid then some .returnToBuffer
        else some .sendBundle

/-- The applicable backlog volume of routing.py `candidate_routes`: the
total size of bundles already queued toward the route's next node at a
priority at least the bundle's (0 when the outbound-queue dict is falsy;
a missing key would be a Python KeyError, modelled with default `[]`). -/
def applicableBacklog (obq : List (Int × List Bundle)) (nextNode : Int)
    (priority : ℤ) : ℚ :=
  if obq = [] then 0
  else ((((obq.lookup nextNode).getD []).filter
    (fun b => priority ≤ b.priority)).map Bundle.size).sum

/-- The applicable backlog relief of routing.py `candidate_routes`: for
every contact of the plan between the same pair of nodes as the route's
first hop that is still open and starts earlier, the volume that fits in
its remainder. -/
def backlogRelief (contactPlan : List Contact) (firstHop : Contact)
    (currTime : ℚ) : ℚ :=
  ((contactPlan.filter fun c =>
      c.frm = firstHop.frm ∧ c.toN = firstHop.toN ∧
      currTime < c.stop ∧ c.start < firstHop.start).map
    (fun c => (c.stop - max currTime c.start) * c.rate)).sum

/-- The timing recursion of `candidate_routes` 3.2.6.9 e) past the first
hop: `first_byte_tx_time = max(start, prev_last_byte_arr_time)`,
`last_byte_arr_time = first_byte_tx_time + size/rate + owlt`; returns the
final last-byte arrival (the projected arrival time). -/
def patFrom (size : ℚ) : List Contact → ℚ → ℚ
  | [], prev => prev
  | c :: rest, prev =>
    let fbt := max c.start prev
    patFrom size rest (fbt + size / c.rate + c.owlt)

/-- Projected arrival time of a route: the first hop transmits at the
early transmission opportunity `eto`. -/
def patOf (size eto : ℚ) : List Contact → ℚ
  | [] => 0
  | c :: rest => patFrom size rest (eto + size / c.rate + c.owlt)

/-- The per-hop first-byte transmission times set by the 3.2.6.9 e) loop
(first hop at `eto`, later hops at `max(start, prev_last_byte_arr)`). -/
def fbtsFrom (size : ℚ) : List Contact → ℚ → List ℚ
  | [], _ => []
  | c :: rest, prev =>
    let fbt := max c.start prev
    fbt :: fbtsFrom size rest (fbt + size / c.rate + c.owlt)

/-- First-byte transmission times of all hops of a route. -/
def routeFbts (size eto : ℚ) : List Contact → List ℚ
  | [] => []
  | c :: rest => eto :: fbtsFrom size rest (eto + size / c.rate + c.owlt)

/-- The 3.2.6.9 f) loop of `candidate_routes`: running minimum of each
hop's effective volume limit
`min((effective_stop - first_byte_tx) * rate, mav[bundle.priority])`,
where the effective stop time is the minimum contact end over the hop's
positional suffix. -/
def evlMinFrom (priority : ℤ) : List Contact → List ℚ → ℚ → ℚ
  | [], _, acc => acc
  | _ :: _, [], acc => acc
  | c :: rest, fbt :: fbts, acc =>
    let stopTime := min c.stop (suffixMinStop (c :: rest))
    let evl := min ((stopTime - fbt) * c.rate) (c.mav.get priority)
    evlMinFrom priority rest fbts (min acc evl)

/-- The screening of one route by routing.py `candidate_routes`, in
source order.  `return_to_sender` is the local constant `True`, so the
backward-propagation block never runs.  The 3.2.6.9 c) back-edge test and
the added per-contact mav test are dead code in the source: their
`continue` statements target the inner for-loop (the source's own FIXME
notes they do nothing), so no route is filtered by them, and the current
node argument is unused.  An empty hop list would raise IndexError in
Python and cannot be produced by the route search. -/
def routeIsCandidate (currTime : ℚ) (currNode : Int) (plan : List Contact)
    (bundle : Bundle) (excluded : List Int) (obq : List (Int × List Bundle))
    (route : Route) : Bool :=
  match route.hops with
  | [] => false
  | h0 :: rest =>
    if bundle.deadline < Route.bdt route then false
    else if h0.toN ∈ excluded then false
    else
      let eto := max currTime h0.start +
        max 0 (applicableBacklog obq h0.toN bundle.priority -
          backlogRelief plan h0 currTime) / h0.rate
      if h0.stop < eto then false
      else if bundle.deadline < patOf bundle.size eto (h0 :: rest) then false
      else
        let rvl := evlMinFrom bundle.priority (h0 :: rest)
          (routeFbts bundle.size eto (h0 :: rest)) sysMaxsize
        if rvl ≤ 0 then false
        else if bundle.fragment = false ∧ rvl < bundle.size then false
        else true

/-- routing.py `candidate_routes`: keep the routes passing the screening,
sorted by the route ordering (Python's stable `sort` with
`Route.__lt__`). -/
def candidateRoutes (currTime : ℚ) (currNode : Int) (plan : List Contact)
    (bundle : Bundle) (routes : List Route) (excluded : List Int)
    (obq : List (Int × List Bundle)) : List Route :=
  (routes.filter
    (routeIsCandidate currTime currNode plan bundle excluded obq)).mergeSort
    fun a b => ! routeLt b a

/-- The skip condition as worded by claim C2 / the spec (for comparison
with `dijkstraSkip`, which is the one translated from the source):
"suppressed, already visited, receiver already on the path, ends before
we could arrive plus transfer, has `mav[priority] < size`, or starts
beyond deadline". -/
def claimSkipDijkstra (current contact : Contact) (deadline size : ℚ)
    (priority : ℤ) : Prop :=
  contact.suppressed = true ∨
  contact.visited = true ∨
  contact.toN ∈ current.visitedNodes ∨
  contact.stop ≤ current.arrivalTime + size / contact.rate ∨
  contact.mav.get priority < size ∨
  deadline ≤ contact.start

/-- Task status values (scheduling/task state machine). -/
inductive TaskStatus
  | pending
  | acquired
  | redundant
  | rescheduled
  | delivered
  | failed
  deriving DecidableEq, Repr

/-- Modelled from the spec: the rank of a task status in the merge
ordering.  The `Task` dataclass in the src snapshot of scheduling.py has
no `__lt__`, although node.py's `_merge_task_tables` and testTask.py use
one; the spec defines the ordering as "pending < acquired < {redundant,
rescheduled} < {delivered, failed}; equal statuses are incomparable". -/
def statusRank : TaskStatus → ℕ
  | .pending => 0
  | .acquired => 1
  | .redundant => 2
  | .rescheduled => 2
  | .delivered => 3
  | .failed => 3

/-- A task-table entry.  Only the fields the merge protocol inspects
(uid via the table key, status via the ordering) plus representative
payload fields are modelled. -/
structure Task where
  uid : String
  status : TaskStatus
  target : Int
  assignee : Option Int
  size : ℚ
  deriving DecidableEq, Repr

/-- Modelled from the spec: `Task.__lt__`, i.e. strict comparison in the
status lattice; statuses of equal rank (in particular equal statuses) are
incomparable. -/
def taskLt (a b : Task) : Bool := statusRank a.status < statusRank b.status

/-- A node's task table, `uid → Task` (node.py `task_table`), as an
association list in insertion order. -/
def TaskTable := List (String × Task)

/-- Python dict assignment `table[uid] = task`: replace in place if the
key is present, else append. -/
def tableSet (t : List (String × Task)) (uid : String) (task : Task) :
    List (String × Task) :=
  if (t.lookup uid).isSome then
    t.map fun p => if p.1 = uid then (uid, task) else p
  else
    t ++ [(uid, task)]

/-- node.py `Node._update_task_change_tracker`: append the task id to the
changed-task list of every neighbour not in `excluded`.  The tracker is
`_task_table_updates`, a dict `node → list of changed task uids` whose
keys are the node's neighbours; it is modelled as a total function on
node ids. -/
def updateTracker (tr : Int → List String) (taskId : String)
    (excluded : List Int) : Int → List String :=
  fun n => if n ∈ excluded then tr n else tr n ++ [taskId]

/-- The body of the loop of node.py `_merge_task_tables` for one incoming
`(uid, task)` pair: if the uid is shared and the local entry is not
strictly less than the incoming task, skip; otherwise store a copy of the
incoming task and mark it changed for every neighbour but `frm`.
`shared` is the key intersection computed before the loop.  The `none`
branch of the shared case is unreachable (a shared key stays present);
Python would raise KeyError there. -/
def mergeStep (shared : List String) (frm : Int)
    (st : List (String × Task) × (Int → List String)) (item : String × Task) :
    List (String × Task) × (Int → List String) :=
  if item.1 ∈ shared then
    match st.1.lookup item.1 with
    | some loc =>
      if taskLt loc item.2 then
        (tableSet st.1 item.1 item.2, updateTracker st.2 item.1 [frm])
      else
        st
    | none => st
  else
    (tableSet st.1 item.1 item.2, updateTracker st.2 item.1 [frm])

/-- node.py `Node._merge_task_tables`: `shared_tasks` is the set of uids
present in both tables, then each incoming pair is processed in order. -/
def mergeTaskTables (table : List (String × Task)) (tr : Int → List String)
    (incoming : List (String × Task)) (frm : Int) :
    List (String × Task) × (Int → List String) :=
  let shared := (incoming.map Prod.fst).filter fun u => (table.lookup u).isSome
  incoming.foldl (mergeStep shared frm) (table, tr)

/-- `Bundle.__lt__` of bundles.py, translated clause by clause: each
Python `return True` becomes a `true` branch and the fall-through
structure is kept (a critical pair that ties on age falls through to the
priority comparison, and a non-critical bundle is compared by priority
even against a critical one). -/
def bundleLt (a b : Bundle) : Bool :=
  if a.critical = true ∧ b.critical = false then true
  else if a.critical = true ∧ b.critical = true ∧ b.age < a.age then true
  else if b.priority < a.priority then true
  else if a.priority = b.priority ∧ a.createdAt < b.createdAt then true
  else if a.priority = b.priority ∧ a.createdAt = b.createdAt ∧ b.hopCount < a.hopCount then
    true
  else false

/-- Object store of `cgr_yens`: the synthetic root contact plus the
contact plan.  Routes hold references to these objects in Python;
references are modelled by uid, with the root checked first (the root is
a distinct object even if a plan contact happened to share its uid). -/
def storeGet (root : Contact) (plan : List Contact) (u : CUid) : Contact :=
  if root.uid = u then root
  else
    match planLookup plan u with
    | some c => c
    | none => root

/-- Write an updated contact back into the store (by uid). -/
def storeSet (root : Contact) (plan : List Contact) (c : Contact) :
    Contact × List Contact :=
  if root.uid = c.uid then (c, plan)
  else (root, plan.map fun x => if x.uid = c.uid then c else x)

/-- `for contact in root_path.hops[:-1]: contact.suppressed = True`
applied through the store. -/
def suppressUids (root : Contact) (plan : List Contact) (us : List CUid) :
    Contact × List Contact :=
  us.foldl
    (fun st u =>
      storeSet st.1 st.2 { storeGet st.1 st.2 u with suppressed := true })
    (root, plan)

/-- The suppressed-next-hop accumulation of `cgr_yens`: every previously
accepted route sharing the root path contributes its divergent hop to the
spur contact's `suppressed_next_hop` (skipping duplicates).  A route
exactly equal to the root path would make Python raise IndexError on the
divergent-hop access; that case contributes nothing here. -/
def addSuppressedNextHops (routes : List Route) (rootPathUids : List CUid)
    (spur : Contact) : Contact :=
  routes.foldl
    (fun sp r =>
      if (r.hops.take rootPathUids.length).map Contact.uid = rootPathUids then
        match r.hops.get? rootPathUids.length with
        | some h =>
          if h.uid ∈ sp.suppressedNextHop then sp
          else { sp with suppressedNextHop := sp.suppressedNextHop ++ [h.uid] }
        | none => sp
      else sp)
    spur

/-- One iteration of the spur loop of `cgr_yens` (one spur contact of the
most recently accepted route, identified by its position `i`): reset the
plan's search and management areas, suppress the root-path contacts
before the spur, accumulate suppressed next hops on the spur, prepare the
spur as a Dijkstra root (arrival time = the root path's best delivery
time, visited nodes = the root path's receivers) and search; a found spur
path extends the root path into a candidate unless an equal-hops
candidate is already present.  The spur's position is used for the
`hops.index(spur_contact)` call of the source (first equal element). -/
def yensSpurStep (dest : Int) (lastHops : List Contact) (routes : List Route)
    (st : Contact × List Contact × List Route) (i : Nat) :
    Contact × List Contact × List Route :=
  match lastHops.get? i with
  | none => st
  | some spurSnapshot =>
    let rootPathHops := lastHops.take (i + 1)
    let plan1 := st.2.1.map fun c => (c.clearDijkstraArea).clearManagementArea
    let rp := suppressUids st.1 plan1 ((rootPathHops.dropLast).map Contact.uid)
    let spur0 := storeGet rp.1 rp.2 spurSnapshot.uid
    let spur1 := addSuppressedNextHops routes (rootPathHops.map Contact.uid) spur0
    let spur2 := { spur1.clearDijkstraArea with
      arrivalTime := bdtOfHops rootPathHops
      visitedNodes := rootPathHops.map Contact.toN }
    let rp2 := storeSet rp.1 rp.2 spur2
    match cgrDijkstra spur2 dest rp2.2 sysMaxsize 0 with
    | none => (rp2.1, rp2.2, st.2.2)
    | some spurPath =>
      let totalHops := rootPathHops ++ spurPath.hops
      if totalHops.map Contact.uid ∈ st.2.2.map (fun p => p.hops.map Contact.uid) then
        (rp2.1, rp2.2, st.2.2)
      else
        (rp2.1, rp2.2, st.2.2 ++ [routeOfHops totalHops])

/-- The spur loop over `routes[-1].hops[:-1]` of `cgr_yens`. -/
def yensSpurIter (dest : Int) (root : Contact) (plan : List Contact)
    (routes : List Route) (potential : List Route) :
    Contact × List Contact × List Route :=
  match routes.getLast? with
  | none => (root, plan, potential)
  | some last =>
    (List.range (last.hops.length - 1)).foldl
      (yensSpurStep dest last.hops routes) (root, plan, potential)

/-- The `for k in range(num_routes - 1)` loop of `cgr_yens`: run the spur
loop; if no potential route remains, stop; otherwise sort the candidates
by the route ordering and move the best one to the accepted list.  The
state is (root, plan, accepted routes, potential routes). -/
def yensLoop (dest : Int) :
    Nat → Contact × List Contact × List Route × List Route →
    Contact × List Contact × List Route × List Route
  | 0, st => st
  | k + 1, st =>
    let s := yensSpurIter dest st.1 st.2.1 st.2.2.1 st.2.2.2
    if s.2.2 = [] then (s.1, s.2.1, st.2.2.1, s.2.2)
    else
      match s.2.2.mergeSort (fun a b => ! routeLt b a) with
      | [] => (s.1, s.2.1, st.2.2.1, s.2.2)
      | best :: restp => yensLoop dest k (s.1, s.2.1, st.2.2.1 ++ [best], restp)

/-- routing.py `cgr_yens`: build the synthetic root contact
`Contact(src, src, src, t_now, sys.maxsize, sys.maxsize)` with arrival
time `t_now`; when no cached routes are passed, clear the plan and seed
the accepted list with the Dijkstra route (returning the empty list when
there is none); insert the root at the head of every accepted route's hop
list; run the k-loop; finally pop the root from every accepted route and
refresh its metrics. -/
def cgrYens (src dest : Int) (contactPlan : List Contact) (tNow : ℚ)
    (numRoutes : Nat) (routesIn : List Route) : List Route :=
  let root := { mkContact src src (some src) tNow sysMaxsize sysMaxsize 1 0 with
    arrivalTime := tNow }
  if routesIn = [] then
    let plan0 := contactPlan.map fun c => (c.clearDijkstraArea).clearManagementArea
    match cgrDijkstra root dest plan0 sysMaxsize 0 with
    | none => routesIn
    | some r =>
      let st := yensLoop dest (numRoutes - 1)
        (root, plan0, [{ r with hops := root :: r.hops }], [])
      st.2.2.1.map fun q => routeOfHops (q.hops.drop 1)
  else
    let st := yensLoop dest (numRoutes - 1)
      (root, contactPlan, routesIn.map (fun r => { r with hops := root :: r.hops }), [])
    st.2.2.1.map fun q => routeOfHops (q.hops.drop 1)

/-- Python `min(contact.mav)` over the three-entry mav list. -/
def minMav (c : Contact) : ℚ := min (min c.mav.m0 c.mav.m1) c.mav.m2

/-- bundles.py `Buffer.append`: append (and re-sort with `Bundle.__lt__`)
when the remaining capacity fits the bundle, else the bundle is not
stored (the method returns False). -/
def bufferAppend (capacity : ℚ) (bundles : List Bundle) (b : Bundle) :
    List Bundle :=
  if b.size ≤ capacity - (bundles.map Bundle.size).sum then
    (bundles ++ [b]).mergeSort fun x y => ! bundleLt y x
  else bundles

/-- The mav refund of node.py `_return_bundle_to_buffer`:
`_contact_resource_update` with the negated size over the contacts of the
bundle's route, addressed through `_contact_plan_dict` (shared objects of
the node's plan, modelled by uid; a route uid with no plan contact would
raise KeyError).  The same ValueError guard applies. -/
def refundRoute (plan : List Contact) (route : List CUid) (size : ℚ)
    (priority : ℤ) : Except String (List Contact) :=
  if priority = 0 ∨ priority = 1 ∨ priority = 2 then
    .ok (plan.map fun c =>
      if c.uid ∈ route then contactMavUpdate c (-size) priority else c)
  else
    .error "Bundle priority not defined in valid range"

/-- `any([min(c.mav) < 0 for c in overbooked_contacts])` where the
monitored contacts are the plan members collected at entry (references,
modelled by uid). -/
def anyOverbooked (plan : List Contact) (uids : List CUid) : Bool :=
  plan.any fun c => decide (c.uid ∈ uids ∧ minMav c < 0)

/-- The `while` loop of node.py `_contact_over_booking`, processing the
sorted union of the outbound queues from its last element (the argument
list is the sorted queue reversed, so the Python `pop()` is the head).
An intersecting bundle has `obey_route` cleared and is returned to the
buffer (refunding mav; the removal from its per-neighbour queue is
bookkeeping outside this state); a non-intersecting bundle is stashed in
`return_to_obq`.  Popping an empty queue is the Python IndexError. -/
def obLoop (uids : List CUid) (capacity : ℚ) :
    List Bundle → List Contact → List Bundle → List Bundle →
    Except String (List Contact × List Bundle × List Bundle × List Bundle)
  | queue, plan, buffer, ret =>
    if anyOverbooked plan uids then
      match queue with
      | [] => .error "pop from empty list"
      | b :: rest =>
        if b.route.any (fun u => decide (u ∈ uids)) then
          match (if b.route = [] then .ok plan
              else refundRoute plan b.route b.size b.priority :
                Except String (List Contact)) with
          | .error e => .error e
          | .ok plan' =>
            obLoop uids capacity rest plan'
              (bufferAppend capacity buffer { b with obeyRoute := false }) ret
        else
          obLoop uids capacity rest plan buffer (ret ++ [b])
    else
      .ok (plan, buffer, ret, queue)

/-- node.py `Node._contact_over_booking`: collect the over-booked
contacts; if none, return unchanged.  Otherwise sort the union of the
outbound queues by the bundle-preemption order and run the loop; the
stashed bundles are appended back to the remaining queue at the end. -/
def contactOverBooking (plan : List Contact) (obqAll : List Bundle)
    (capacity : ℚ) (buffer : List Bundle) :
    Except String (List Contact × List Bundle × List Bundle) :=
  let overbooked := plan.filter fun c => decide (minMav c < 0)
  if overbooked = [] then .ok (plan, buffer, obqAll)
  else
    let sorted := obqAll.mergeSort fun a b => ! bundleLt b a
    match obLoop (overbooked.map Contact.uid) capacity sorted.reverse plan
        buffer [] with
    | .error e => .error e
    | .ok (plan', buffer', ret, leftover) =>
      .ok (plan', buffer', leftover.reverse ++ ret)

/-- The volume of the remaining queued bundles routed over contact `u`
at priority at least `q`: the amount the loop can still refund to
`mav[q]` of that contact. -/
def contribTo (queue : List Bundle) (u : CUid) (q : ℤ) : ℚ :=
  ((queue.filter fun b => decide (u ∈ b.route ∧ q ≤ b.priority)).map
    Bundle.size).sum

theorem netAt_nil (q : ℤ) : netAt q [] = 0 := rfl

theorem netAt_cons (q : ℤ) (p : ℤ) (s : ℚ) (rest : List (ℤ × ℚ)) :
    netAt q ((p, s) :: rest) = (if p = q then s else 0) + netAt q rest := by
  by_cases h : p = q <;> simp [netAt, h]

theorem mavGet_dec (m : Mav) (p : ℤ) (size : ℚ) (q : ℤ)
    (hp : p = 0 ∨ p = 1 ∨ p = 2) (hq : q = 0 ∨ q = 1 ∨ q = 2) :
    (m.dec p size).get q = m.get q - (if q ≤ p then size else 0) := by
  rcases hp with rfl | rfl | rfl <;> rcases hq with rfl | rfl | rfl <;>
    norm_num [Mav.dec, Mav.get]

theorem applyResourceOps_ok (ops : List (ℤ × ℚ)) (c : Contact)
    (h : ∀ op ∈ ops, op.1 = 0 ∨ op.1 = 1 ∨ op.1 = 2) :
    applyResourceOps c ops = .ok
      { c with mav :=
          ⟨c.mav.m0 - (netAt 0 ops + netAt 1 ops + netAt 2 ops),
           c.mav.m1 - (netAt 1 ops + netAt 2 ops),
           c.mav.m2 - netAt 2 ops⟩ } := by
  induction ops generalizing c with
  | nil =>
    simp [applyResourceOps, netAt_nil]
  | cons op rest ih =>
    obtain ⟨p, s⟩ := op
    have hp : p = 0 ∨ p = 1 ∨ p = 2 := h (p, s) (List.mem_cons_self _ _)
    have hrest : ∀ op ∈ rest, op.1 = 0 ∨ op.1 = 1 ∨ op.1 = 2 :=
      fun op hop => h op (List.mem_cons_of_mem _ hop)
    rw [applyResourceOps, if_pos hp, ih _ hrest]
    rcases hp with rfl | rfl | rfl <;>
      simp [contactMavUpdate, Mav.dec, netAt_cons] <;> ring_nf <;> simp

/-- C1: the claimed invariant `mav[p] ≤ mav[p-1]` is false on the code: a
single reservation of size 3 at priority 1 on a fresh contact of volume 10
(start 0, end 10, rate 1) leaves `mav = [7, 7, 10]`, an observable point
with `mav[1] < mav[2]`, contradicting `mav[2] ≤ mav[1]`. -/
theorem contact_mav_claim_counterexample :
    ∃ c', applyResourceOps (mkContact 1 2 none 0 10 1 1 0) [(1, 3)] = .ok c' ∧
      c'.mav.get 1 < c'.mav.get 2 :=
  ⟨contactMavUpdate (mkContact 1 2 none 0 10 1 1 0) 3 1,
    by norm_num [applyResourceOps],
    by norm_num [contactMavUpdate, mkContact, Mav.dec, Mav.get]⟩

/-- C1 (amended): at construction and after any sequence of reservations
and rollbacks through `_contact_resource_update` at priorities 0, 1 or 2
in which rollbacks never exceed prior reservations per priority (net
reserved size at each priority is non-negative), the per-priority
available volumes satisfy the reversed chain `mav[p-1] ≤ mav[p] ≤ volume`
for `p ∈ {1,2}`, and a reservation at priority `p` decrements
`mav[0..p]` simultaneously by the reserved size. -/
theorem contact_mav_invariant (frm toNode : Int) (toEid : Option Int)
    (start stop rate confidence owlt : ℚ) (ops : List (ℤ × ℚ))
    (hval : ∀ op ∈ ops, op.1 = 0 ∨ op.1 = 1 ∨ op.1 = 2)
    (hn0 : 0 ≤ netAt 0 ops) (hn1 : 0 ≤ netAt 1 ops) (hn2 : 0 ≤ netAt 2 ops) :
    ∃ c', applyResourceOps (mkContact frm toNode toEid start stop rate confidence owlt) ops
        = .ok c' ∧
      c'.mav.get 0 ≤ c'.mav.get 1 ∧ c'.mav.get 1 ≤ c'.mav.get 2 ∧
      c'.mav.get 2 ≤ c'.volume ∧
      (∀ size p, p = 0 ∨ p = 1 ∨ p = 2 → ∀ q, q = 0 ∨ q = 1 ∨ q = 2 →
        (contactMavUpdate c' size p).mav.get q
          = c'.mav.get q - (if q ≤ p then size else 0)) := by
  refine ⟨_, applyResourceOps_ok ops _ hval, ?_, ?_, ?_, ?_⟩
  · simp only [Mav.get, mkContact]
    norm_num
    linarith
  · simp only [Mav.get, mkContact]
    norm_num
    linarith
  · simp only [Mav.get, mkContact]
    norm_num
    linarith
  · intro size p hp q hq
    exact mavGet_dec _ p size q hp hq

/-- Witness for `contact_mav_invariant`: a reservation at priority 1, a
reservation at priority 2 and a rollback of the first reservation. -/
theorem contact_mav_invariant_witness :
    ∃ c', applyResourceOps (mkContact 1 2 none 0 10 1 1 0) [(1, 3), (2, 1), (1, -3)]
        = .ok c' ∧
      c'.mav.get 0 ≤ c'.mav.get 1 ∧ c'.mav.get 1 ≤ c'.mav.get 2 ∧
      c'.mav.get 2 ≤ c'.volume := by
  obtain ⟨c', h1, h2, h3, h4, _⟩ :=
    contact_mav_invariant 1 2 none 0 10 1 1 0 [(1, 3), (2, 1), (1, -3)]
      (by decide) (by norm_num [netAt, List.filter])
      (by norm_num [netAt, List.filter]) (by norm_num [netAt, List.filter])
  exact ⟨c', h1, h2, h3, h4⟩

/-- C10: `_contact_resource_update` with a priority in {0,1,2} decrements
exactly the mav entries at indices 0..priority of exactly the listed
contacts by `size`, leaves their volume, start, end, rate, uid and
confidence unchanged, and leaves contacts not in the list unchanged; with
a priority outside {0,1,2} it raises ValueError without modifying any
contact. -/
theorem contact_resource_update_frame (plan : List Contact) (idxs : List Nat)
    (size : ℚ) (priority : ℤ) :
    (priority = 0 ∨ priority = 1 ∨ priority = 2 →
      ∃ plan', contactResourceUpdate plan idxs size priority = .ok plan' ∧
        plan'.length = plan.length ∧
        ∀ i (hi : i < plan.length) (hi' : i < plan'.length),
          (i ∈ idxs →
            (plan'.get ⟨i, hi'⟩).volume = (plan.get ⟨i, hi⟩).volume ∧
            (plan'.get ⟨i, hi'⟩).start = (plan.get ⟨i, hi⟩).start ∧
            (plan'.get ⟨i, hi'⟩).stop = (plan.get ⟨i, hi⟩).stop ∧
            (plan'.get ⟨i, hi'⟩).rate = (plan.get ⟨i, hi⟩).rate ∧
            (plan'.get ⟨i, hi'⟩).uid = (plan.get ⟨i, hi⟩).uid ∧
            (plan'.get ⟨i, hi'⟩).confidence = (plan.get ⟨i, hi⟩).confidence ∧
            (∀ q, q = 0 ∨ q = 1 ∨ q = 2 →
              (plan'.get ⟨i, hi'⟩).mav.get q
                = (plan.get ⟨i, hi⟩).mav.get q - (if q ≤ priority then size else 0))) ∧
          (i ∉ idxs → plan'.get ⟨i, hi'⟩ = plan.get ⟨i, hi⟩)) ∧
    (¬(priority = 0 ∨ priority = 1 ∨ priority = 2) →
      contactResourceUpdate plan idxs size priority
        = .error "Bundle priority not defined in valid range") := by
  constructor
  · intro hp
    refine ⟨_, by rw [contactResourceUpdate, if_pos hp], List.length_mapIdx, ?_⟩
    intro i hi hi'
    rw [List.get_mapIdx _ _ i hi]
    constructor
    · intro hmem
      rw [if_pos hmem]
      refine ⟨rfl, rfl, rfl, rfl, rfl, rfl, ?_⟩
      intro q hq
      exact mavGet_dec _ priority size q hp hq
    · intro hmem
      rw [if_neg hmem]
  · intro hp
    rw [contactResourceUpdate, if_neg hp]

theorem lookup_map_set (t : List (String × Task)) (uid : String) (x : Task) :
    (t.map fun p => if p.1 = uid then (uid, x) else p).lookup uid
      = (t.lookup uid).map (fun _ => x) := by
  induction t with
  | nil => rfl
  | cons p rest ih =>
    obtain ⟨k, v⟩ := p
    by_cases h : k = uid
    · subst h
      simp [List.lookup_cons]
    · have hne : uid ≠ k := fun e => h e.symm
      simp only [List.map_cons, if_neg h, List.lookup_cons, beq_false_of_ne hne]
      exact ih

theorem lookup_map_set_ne (t : List (String × Task)) (u v : String) (x : Task)
    (h : v ≠ u) :
    (t.map fun p => if p.1 = u then (u, x) else p).lookup v = t.lookup v := by
  induction t with
  | nil => rfl
  | cons p rest ih =>
    obtain ⟨k, w⟩ := p
    by_cases hk : k = u
    · subst hk
      simpa [List.lookup_cons, beq_false_of_ne h] using ih
    · cases hb : (v == k)
      · simpa [List.lookup_cons, if_neg hk, hb] using ih
      · simp [List.lookup_cons, if_neg hk, hb]

theorem lookup_append_one (t : List (String × Task)) (u : String) (x : Task)
    (h : t.lookup u = none) : (t ++ [(u, x)]).lookup u = some x := by
  induction t with
  | nil => simp [List.lookup_cons]
  | cons p rest ih =>
    obtain ⟨k, v⟩ := p
    by_cases hk : u = k
    · subst hk
      simp [List.lookup_cons] at h
    · simp only [List.lookup_cons, beq_false_of_ne hk] at h
      simp only [List.cons_append, List.lookup_cons, beq_false_of_ne hk]
      exact ih h

theorem lookup_append_one_ne (t : List (String × Task)) (u v : String) (x : Task)
    (h : v ≠ u) : (t ++ [(u, x)]).lookup v = t.lookup v := by
  induction t with
  | nil => simp [List.lookup_cons, beq_false_of_ne h]
  | cons p rest ih =>
    obtain ⟨k, w⟩ := p
    by_cases hk : v = k
    · subst hk
      simp [List.lookup_cons]
    · simp only [List.cons_append, List.lookup_cons, beq_false_of_ne hk]
      exact ih

theorem lookup_tableSet_self (t : List (String × Task)) (u : String) (x : Task) :
    (tableSet t u x).lookup u = some x := by
  unfold tableSet
  by_cases h : (t.lookup u).isSome
  · rw [if_pos h, lookup_map_set]
    obtain ⟨v, hv⟩ := Option.isSome_iff_exists.1 h
    rw [hv]
    rfl
  · rw [if_neg h]
    exact lookup_append_one t u x (Option.not_isSome_iff_eq_none.1 h)

theorem lookup_tableSet_ne (t : List (String × Task)) (u v : String) (x : Task)
    (h : v ≠ u) : (tableSet t u x).lookup v = t.lookup v := by
  unfold tableSet
  split
  · exact lookup_map_set_ne t u v x h
  · exact lookup_append_one_ne t u v x h

theorem mergeStep_lookup_ne (shared : List String) (frm : Int)
    (st : List (String × Task) × (Int → List String)) (item : String × Task)
    (uid : String) (h : item.1 ≠ uid) :
    (mergeStep shared frm st item).1.lookup uid = st.1.lookup uid := by
  unfold mergeStep
  by_cases hs : item.1 ∈ shared
  · rw [if_pos hs]
    cases hl : st.1.lookup item.1 with
    | none => rfl
    | some loc =>
      cases hlt : taskLt loc item.2
      · simp [hlt]
      · simpa [hlt] using lookup_tableSet_ne st.1 item.1 uid item.2 (fun e => h e.symm)
  · rw [if_neg hs]
    exact lookup_tableSet_ne st.1 item.1 uid item.2 (fun e => h e.symm)

theorem fold_lookup_notmem (shared : List String) (frm : Int)
    (items : List (String × Task)) (st : List (String × Task) × (Int → List String))
    (uid : String) (h : uid ∉ items.map Prod.fst) :
    (items.foldl (mergeStep shared frm) st).1.lookup uid = st.1.lookup uid := by
  induction items generalizing st with
  | nil => rfl
  | cons item rest ih =>
    simp only [List.map_cons, List.mem_cons] at h
    push_neg at h
    rw [List.foldl_cons, ih _ h.2, mergeStep_lookup_ne _ _ _ _ _ (fun e => h.1 e.symm)]

theorem mergeStep_tracker_mono (shared : List String) (frm : Int)
    (st : List (String × Task) × (Int → List String)) (item : String × Task)
    (n : Int) (x : String) (h : x ∈ st.2 n) :
    x ∈ (mergeStep shared frm st item).2 n := by
  unfold mergeStep
  by_cases hs : item.1 ∈ shared
  · rw [if_pos hs]
    cases hl : st.1.lookup item.1 with
    | none => exact h
    | some loc =>
      cases hlt : taskLt loc item.2
      · simpa [hlt] using h
      · by_cases hn : n = frm
        · subst hn
          simp [hlt, updateTracker, h]
        · simp [hlt, updateTracker, hn, h]
  · rw [if_neg hs]
    by_cases hn : n = frm
    · subst hn
      simp [updateTracker, h]
    · simp [updateTracker, hn, h]

theorem fold_tracker_mono (shared : List String) (frm : Int)
    (items : List (String × Task)) (st : List (String × Task) × (Int → List String))
    (n : Int) (x : String) (h : x ∈ st.2 n) :
    x ∈ (items.foldl (mergeStep shared frm) st).2 n := by
  induction items generalizing st with
  | nil => exact h
  | cons item rest ih =>
    exact ih _ (mergeStep_tracker_mono shared frm st item n x h)

theorem mergeStep_tracker_frm (shared : List String) (frm : Int)
    (st : List (String × Task) × (Int → List String)) (item : String × Task) :
    (mergeStep shared frm st item).2 frm = st.2 frm := by
  unfold mergeStep
  by_cases hs : item.1 ∈ shared
  · rw [if_pos hs]
    cases hl : st.1.lookup item.1 with
    | none => rfl
    | some loc =>
      cases hlt : taskLt loc item.2
      · simp [hlt]
      · simp [hlt, updateTracker]
  · rw [if_neg hs]
    simp [updateTracker]

theorem fold_tracker_frm (shared : List String) (frm : Int)
    (items : List (String × Task)) (st : List (String × Task) × (Int → List String)) :
    (items.foldl (mergeStep shared frm) st).2 frm = st.2 frm := by
  induction items generalizing st with
  | nil => rfl
  | cons item rest ih =>
    rw [List.foldl_cons, ih, mergeStep_tracker_frm]

theorem fold_lookup_mem (shared : List String) (frm : Int)
    (items : List (String × Task)) (st : List (String × Task) × (Int → List String))
    (uid : String) (task : Task) (hmem : (uid, task) ∈ items)
    (hnodup : (items.map Prod.fst).Nodup) :
    (items.foldl (mergeStep shared frm) st).1.lookup uid =
      (if uid ∈ shared then
        match st.1.lookup uid with
        | some loc => if taskLt loc task then some task else some loc
        | none => st.1.lookup uid
      else some task) := by
  induction items generalizing st with
  | nil => cases hmem
  | cons item rest ih =>
    simp only [List.map_cons, List.nodup_cons] at hnodup
    rcases List.mem_cons.1 hmem with heq | htail
    · have hrest : uid ∉ rest.map Prod.fst := by
        rw [← heq] at hnodup
        exact hnodup.1
      rw [List.foldl_cons, fold_lookup_notmem _ _ _ _ _ hrest]
      subst heq
      unfold mergeStep
      split
      · cases hl : st.1.lookup uid with
        | none => simp [hl]
        | some loc =>
          simp only [hl]
          split
          · simp [lookup_tableSet_self]
          · simp [hl]
      · simp [lookup_tableSet_self]
    · have hne : item.1 ≠ uid := by
        intro e
        exact hnodup.1 (e ▸ List.mem_map.2 ⟨(uid, task), htail, rfl⟩)
      rw [List.foldl_cons, ih _ htail hnodup.2, mergeStep_lookup_ne _ _ _ _ _ hne]

theorem fold_tracker_marked (shared : List String) (frm : Int)
    (items : List (String × Task)) (st : List (String × Task) × (Int → List String))
    (uid : String) (task : Task) (hmem : (uid, task) ∈ items)
    (hnodup : (items.map Prod.fst).Nodup)
    (hch : uid ∉ shared ∨ ∃ loc, st.1.lookup uid = some loc ∧ taskLt loc task) :
    ∀ n, n ≠ frm → uid ∈ (items.foldl (mergeStep shared frm) st).2 n := by
  induction items generalizing st with
  | nil => cases hmem
  | cons item rest ih =>
    intro n hn
    simp only [List.map_cons, List.nodup_cons] at hnodup
    rcases List.mem_cons.1 hmem with heq | htail
    · subst heq
      rw [List.foldl_cons]
      apply fold_tracker_mono
      unfold mergeStep
      by_cases hs : (uid, task).1 ∈ shared
      · rw [if_pos hs]
        rcases hch with hns | ⟨loc, hloc, hlt⟩
        · exact absurd hs hns
        · rw [hloc]
          simp [hlt, updateTracker, hn]
      · rw [if_neg hs]
        simp [updateTracker, hn]
    · have hne : item.1 ≠ uid := by
        intro e
        exact hnodup.1 (e ▸ List.mem_map.2 ⟨(uid, task), htail, rfl⟩)
      rw [List.foldl_cons]
      refine ih _ htail hnodup.2 ?_ n hn
      rcases hch with hns | ⟨loc, hloc, hlt⟩
      · exact Or.inl hns
      · exact Or.inr ⟨loc, by rw [mergeStep_lookup_ne _ _ _ _ _ hne]; exact hloc, hlt⟩

/-- C3: on merging a batch of tasks with distinct uids, for every
`(uid, task)` pair of the batch: an absent uid is inserted; a present uid
is replaced exactly when the local entry is strictly less than the
incoming one under the task ordering (so an entry of equal status is
never overwritten); whenever the local entry changes (insert or replace)
the task is marked as changed for every neighbour other than the sender,
and the sender's own changed-list is never touched.  The Task ordering is
modelled from the spec (see `statusRank`). -/
theorem merge_task_tables_correct (table : List (String × Task))
    (tr : Int → List String) (incoming : List (String × Task)) (frm : Int)
    (hnodup : (incoming.map Prod.fst).Nodup)
    (uid : String) (task : Task) (hmem : (uid, task) ∈ incoming) :
    (table.lookup uid = none →
      (mergeTaskTables table tr incoming frm).1.lookup uid = some task) ∧
    (∀ loc, table.lookup uid = some loc →
      (mergeTaskTables table tr incoming frm).1.lookup uid =
        some (if taskLt loc task then task else loc) ∧
      (loc.status = task.status →
        (mergeTaskTables table tr incoming frm).1.lookup uid = some loc)) ∧
    ((table.lookup uid = none ∨ ∃ loc, table.lookup uid = some loc ∧ taskLt loc task) →
      ∀ n, n ≠ frm → uid ∈ (mergeTaskTables table tr incoming frm).2 n) ∧
    (mergeTaskTables table tr incoming frm).2 frm = tr frm := by
  have hshared : uid ∈ (incoming.map Prod.fst).filter (fun u => (table.lookup u).isSome)
      ↔ (table.lookup uid).isSome := by
    constructor
    · intro h
      exact (List.mem_filter.1 h).2
    · intro h
      exact List.mem_filter.2 ⟨List.mem_map.2 ⟨(uid, task), hmem, rfl⟩, h⟩
  refine ⟨?_, ?_, ?_, ?_⟩
  · intro hnone
    have hns : uid ∉ (incoming.map Prod.fst).filter (fun u => (table.lookup u).isSome) := by
      rw [hshared, hnone]
      simp
    rw [mergeTaskTables, fold_lookup_mem _ _ _ _ uid task hmem hnodup, if_neg hns]
  · intro loc hloc
    have hs : uid ∈ (incoming.map Prod.fst).filter (fun u => (table.lookup u).isSome) := by
      rw [hshared, hloc]
      rfl
    constructor
    · rw [mergeTaskTables, fold_lookup_mem _ _ _ _ uid task hmem hnodup, if_pos hs]
      simp only [hloc]
      split <;> rfl
    · intro hstat
      have hlt : taskLt loc task = false := by
        simp [taskLt, hstat]
      rw [mergeTaskTables, fold_lookup_mem _ _ _ _ uid task hmem hnodup, if_pos hs]
      simp [hloc, hlt]
  · intro hch
    refine fold_tracker_marked _ _ _ _ uid task hmem hnodup ?_
    rcases hch with hnone | ⟨loc, hloc, hlt⟩
    · refine Or.inl ?_
      rw [hshared, hnone]
      simp
    · exact Or.inr ⟨loc, hloc, hlt⟩
  · exact fold_tracker_frm _ _ _ _

/-- Witness for `merge_task_tables_correct`: merging a two-task batch
(one new uid, one shared uid whose local entry is pending and incoming is
acquired) from neighbour 7 into a one-entry table. -/
theorem merge_task_tables_correct_witness :
    ((mergeTaskTables [("t1", ⟨"t1", .pending, 3, none, 1⟩)] (fun _ => [])
        [("t1", ⟨"t1", .acquired, 3, some 4, 1⟩), ("t2", ⟨"t2", .pending, 5, none, 2⟩)]
        7).1.lookup "t2" = some ⟨"t2", .pending, 5, none, 2⟩) ∧
    ((mergeTaskTables [("t1", ⟨"t1", .pending, 3, none, 1⟩)] (fun _ => [])
        [("t1", ⟨"t1", .acquired, 3, some 4, 1⟩), ("t2", ⟨"t2", .pending, 5, none, 2⟩)]
        7).1.lookup "t1" = some ⟨"t1", .acquired, 3, some 4, 1⟩) ∧
    "t1" ∈ (mergeTaskTables [("t1", ⟨"t1", .pending, 3, none, 1⟩)] (fun _ => [])
        [("t1", ⟨"t1", .acquired, 3, some 4, 1⟩), ("t2", ⟨"t2", .pending, 5, none, 2⟩)]
        7).2 9 := by
  refine ⟨?_, ?_, ?_⟩
  · exact (merge_task_tables_correct [("t1", ⟨"t1", .pending, 3, none, 1⟩)] (fun _ => [])
      [("t1", ⟨"t1", .acquired, 3, some 4, 1⟩), ("t2", ⟨"t2", .pending, 5, none, 2⟩)] 7
      (by decide) "t2" ⟨"t2", .pending, 5, none, 2⟩
      (by simp)).1 (by rfl)
  · have h := ((merge_task_tables_correct [("t1", ⟨"t1", .pending, 3, none, 1⟩)]
      (fun _ => [])
      [("t1", ⟨"t1", .acquired, 3, some 4, 1⟩), ("t2", ⟨"t2", .pending, 5, none, 2⟩)] 7
      (by decide) "t1"
      (⟨"t1", .acquired, 3, some 4, 1⟩ : Task) (by simp)).2.1
      ⟨"t1", .pending, 3, none, 1⟩ (by rfl)).1
    simpa [taskLt, statusRank] using h
  · exact (merge_task_tables_correct [("t1", ⟨"t1", .pending, 3, none, 1⟩)] (fun _ => [])
      [("t1", ⟨"t1", .acquired, 3, some 4, 1⟩), ("t2", ⟨"t2", .pending, 5, none, 2⟩)] 7
      (by decide) "t1"
      (⟨"t1", .acquired, 3, some 4, 1⟩ : Task) (by simp)).2.2.1
      (Or.inr ⟨⟨"t1", .pending, 3, none, 1⟩, by rfl, by decide⟩) 9 (by decide)

/-- C2: the claimed "skipped if and only if" is false on the code.  With
a current contact 0→1 (arrived at time 0) and an outgoing contact 1→2 of
volume 10 whose mav has been fully reserved (`mav = [0,0,0]` after a
priority-2 reservation of its full volume), the claim's condition
`mav[priority] < size` holds for size 5 at every priority in {0,1,2}, so
the claim says the contact is skipped; but `cgr_dijkstra` tests the
static `volume` (it has no priority parameter), does not skip, and
relaxes the contact (its predecessor is set to the current contact). -/
theorem dijkstra_skip_claim_counterexample :
    (∀ p, p = 0 ∨ p = 1 ∨ p = 2 →
      claimSkipDijkstra
        { mkContact 0 1 none 0 20 1 1 0 with arrivalTime := 0, visitedNodes := [1] }
        (contactMavUpdate (mkContact 1 2 none 0 10 1 1 0) 10 2) sysMaxsize 5 p) ∧
    ¬ dijkstraSkip
        { mkContact 0 1 none 0 20 1 1 0 with arrivalTime := 0, visitedNodes := [1] }
        (contactMavUpdate (mkContact 1 2 none 0 10 1 1 0) 10 2) sysMaxsize 5 ∧
    (relaxOne
        { mkContact 0 1 none 0 20 1 1 0 with arrivalTime := 0, visitedNodes := [1] }
        2 sysMaxsize 5
        (contactMavUpdate (mkContact 1 2 none 0 10 1 1 0) 10 2) none sysMaxsize).1.pred
      = some (Contact.uid
        { mkContact 0 1 none 0 20 1 1 0 with arrivalTime := 0, visitedNodes := [1] }) := by
  have hns : ¬ dijkstraSkip
      { mkContact 0 1 none 0 20 1 1 0 with arrivalTime := 0, visitedNodes := [1] }
      (contactMavUpdate (mkContact 1 2 none 0 10 1 1 0) 10 2) sysMaxsize 5 := by
    norm_num [dijkstraSkip, Contact.uid, contactMavUpdate, mkContact, Mav.dec, sysMaxsize]
  refine ⟨?_, hns, ?_⟩
  · intro p hp
    rcases hp with rfl | rfl | rfl <;>
      norm_num [claimSkipDijkstra, contactMavUpdate, mkContact, Mav.dec, Mav.get]
  · rw [relaxOne, if_neg hns]
    norm_num [contactMavUpdate, mkContact, sysMaxsize, arrvlTimeOf]

/-- C2 (amended): in the relaxation loop of `cgr_dijkstra`, an outgoing
contact of the current contact's receiving node (with a positive rate,
else Python raises ZeroDivisionError) is skipped if and only if it is in
the current contact's `suppressed_next_hop`, suppressed, already visited,
its receiver is already on the path, it starts at or beyond the deadline,
it ends before the current arrival plus the transfer time
(`end ≤ arrival + size/rate`), its static `volume` (not `mav[priority]`;
the search takes no priority) is below `size`, or it is the exact reverse
of the current contact.  A skipped contact (and the final-contact
accumulator) is left unchanged; otherwise
`arrival = max(current.arrival_time, contact.start) + contact.owlt` is
computed and the contact is updated exactly when `arrival` is strictly
below its recorded arrival time.  The skip decision is independent of the
contact's mav values. -/
theorem dijkstra_relax_step (current c : Contact) (dest : Int)
    (deadline size e : ℚ) (fin : Option CUid) (hrate : 0 < c.rate) :
    (dijkstraSkip current c deadline size →
      relaxOne current dest deadline size c fin e = (c, fin, e)) ∧
    (¬ dijkstraSkip current c deadline size →
      (max current.arrivalTime c.start + c.owlt < c.arrivalTime →
        (relaxOne current dest deadline size c fin e).1 =
          { c with
            arrivalTime := max current.arrivalTime c.start + c.owlt
            pred := some current.uid
            visitedNodes := current.visitedNodes ++ [c.toN] }) ∧
      (c.arrivalTime ≤ max current.arrivalTime c.start + c.owlt →
        relaxOne current dest deadline size c fin e = (c, fin, e))) ∧
    (∀ m : Mav, dijkstraSkip current { c with mav := m } deadline size ↔
      dijkstraSkip current c deadline size) := by
  have harr : arrvlTimeOf current c = max current.arrivalTime c.start + c.owlt := by
    unfold arrvlTimeOf
    by_cases h : c.start < current.arrivalTime
    · rw [if_pos h, max_eq_left h.le]
    · rw [if_neg h, max_eq_right (le_of_not_lt h)]
  refine ⟨?_, ?_, ?_⟩
  · intro hs
    rw [relaxOne, if_pos hs]
  · intro hs
    constructor
    · intro hlt
      rw [relaxOne, if_neg hs]
      simp only [harr, if_pos hlt]
      split
      · rfl
      · rfl
    · intro hge
      rw [relaxOne, if_neg hs]
      simp only [harr]
      rw [if_neg (not_lt.2 hge)]
  · intro m
    unfold dijkstraSkip
    rfl

/-- Witness for `dijkstra_relax_step`: the relaxation of a feasible
outgoing contact 1→2 from a current contact 0→1 arrived at time 0. -/
theorem dijkstra_relax_step_witness :
    (relaxOne
      { mkContact 0 1 none 0 20 1 1 0 with arrivalTime := 0, visitedNodes := [1] }
      2 sysMaxsize 0 (mkContact 1 2 none 3 10 1 1 2) none sysMaxsize).1 =
      { mkContact 1 2 none 3 10 1 1 2 with
        arrivalTime := 5
        pred := some (Contact.uid
          { mkContact 0 1 none 0 20 1 1 0 with arrivalTime := 0, visitedNodes := [1] })
        visitedNodes := [1, 2] } := by
  have h := ((dijkstra_relax_step
    { mkContact 0 1 none 0 20 1 1 0 with arrivalTime := 0, visitedNodes := [1] }
    (mkContact 1 2 none 3 10 1 1 2) 2 sysMaxsize 0 sysMaxsize none
    (by norm_num [mkContact])).2.1
    (by norm_num [dijkstraSkip, Contact.uid, mkContact, sysMaxsize])).1
    (by norm_num [mkContact, sysMaxsize])
  rw [h]
  norm_num [mkContact]

theorem relaxOne_stat_frm (current : Contact) (dest : Int) (deadline size : ℚ)
    (c : Contact) (fin : Option CUid) (e : ℚ) :
    ((relaxOne current dest deadline size c fin e).1).stat = c.stat ∧
    ((relaxOne current dest deadline size c fin e).1).frm = c.frm := by
  unfold relaxOne
  split
  · exact ⟨rfl, rfl⟩
  · dsimp only
    split
    · split
      · exact ⟨rfl, rfl⟩
      · exact ⟨rfl, rfl⟩
    · exact ⟨rfl, rfl⟩

theorem relaxOne_fin (current : Contact) (dest : Int) (deadline size : ℚ)
    (c : Contact) (fin : Option CUid) (e : ℚ) :
    (relaxOne current dest deadline size c fin e).2.1 = fin ∨
    ((relaxOne current dest deadline size c fin e).2.1 = some c.uid ∧
      c.toEid = dest) := by
  unfold relaxOne
  split
  · exact Or.inl rfl
  · dsimp only
    split
    · split
      · next h => exact Or.inr ⟨rfl, h.1⟩
      · exact Or.inl rfl
    · exact Or.inl rfl

theorem relaxAll_inv (stats : List CStat) (src : Int) (current : Contact)
    (dest : Int) (deadline size : ℚ) (l : List Contact) (fin : Option CUid) (e : ℚ)
    (Hcur : NodeReach stats src current.toN)
    (Hl : ∀ c ∈ l, c.arrivalTime < sysMaxsize → NodeReach stats src c.frm)
    (HlS : ∀ c ∈ l, c.stat ∈ stats)
    (Hfin : fin = none ∨ ∃ s ∈ stats, s.toEid = dest ∧ NodeReach stats src s.frm) :
    ((relaxAll current dest deadline size l fin e).1.map Contact.stat
        = l.map Contact.stat) ∧
    (∀ c ∈ (relaxAll current dest deadline size l fin e).1,
      c.arrivalTime < sysMaxsize → NodeReach stats src c.frm) ∧
    ((relaxAll current dest deadline size l fin e).2.1 = none ∨
      ∃ s ∈ stats, s.toEid = dest ∧ NodeReach stats src s.frm) := by
  induction l generalizing fin e with
  | nil =>
    exact ⟨rfl, by simp [relaxAll], by simpa [relaxAll] using Hfin⟩
  | cons c rest ih =>
    have Hc := Hl c (List.mem_cons_self _ _)
    have HcS := HlS c (List.mem_cons_self _ _)
    have Hrest : ∀ x ∈ rest, x.arrivalTime < sysMaxsize → NodeReach stats src x.frm :=
      fun x hx => Hl x (List.mem_cons_of_mem _ hx)
    have HrestS : ∀ x ∈ rest, x.stat ∈ stats :=
      fun x hx => HlS x (List.mem_cons_of_mem _ hx)
    rw [relaxAll]
    by_cases hfrm : c.frm = current.toN
    · rw [if_pos hfrm]
      have hfin' : (relaxOne current dest deadline size c fin e).2.1 = none ∨
          ∃ s ∈ stats, s.toEid = dest ∧ NodeReach stats src s.frm := by
        rcases relaxOne_fin current dest deadline size c fin e with h | ⟨h, hd⟩
        · rw [h]
          exact Hfin
        · refine Or.inr ⟨c.stat, HcS, hd, ?_⟩
          have h2 : c.stat.frm = current.toN := hfrm
          rw [h2]
          exact Hcur
      obtain ⟨ih1, ih2, ih3⟩ := ih
        (relaxOne current dest deadline size c fin e).2.1
        (relaxOne current dest deadline size c fin e).2.2 Hrest HrestS hfin'
      refine ⟨?_, ?_, ih3⟩
      · simp only [List.map_cons, ih1, (relaxOne_stat_frm current dest deadline size c fin e).1]
      · intro x hx
        rcases List.mem_cons.1 hx with rfl | hx'
        · intro _
          rw [(relaxOne_stat_frm current dest deadline size c fin e).2, hfrm]
          exact Hcur
        · exact ih2 x hx'
    · rw [if_neg hfrm]
      obtain ⟨ih1, ih2, ih3⟩ := ih fin e Hrest HrestS Hfin
      refine ⟨?_, ?_, ih3⟩
      · simp only [List.map_cons, ih1]
      · intro x hx
        rcases List.mem_cons.1 hx with rfl | hx'
        · exact Hc
        · exact ih2 x hx'

theorem markVisited_map_stat (l : List Contact) (u : CUid) :
    (markVisited l u).map Contact.stat = l.map Contact.stat := by
  unfold markVisited
  rw [List.map_map]
  apply List.map_congr_left
  intro c _
  by_cases h : c.uid = u <;> simp [h, Contact.stat]

theorem markVisited_mem (l : List Contact) (u : CUid) (c : Contact)
    (h : c ∈ markVisited l u) :
    ∃ c₀ ∈ l, c.arrivalTime = c₀.arrivalTime ∧ c.frm = c₀.frm := by
  obtain ⟨c₀, hc₀, he⟩ := List.mem_map.1 h
  refine ⟨c₀, hc₀, ?_⟩
  by_cases hu : c₀.uid = u <;> simp [hu] at he <;> subst he <;> exact ⟨rfl, rfl⟩

theorem selectNextAux_spec (e : ℚ) (l : List Contact) (big : List Contact) :
    ∀ (earliest : ℚ) (best : Option Contact),
    (∀ c ∈ l, c ∈ big) →
    (earliest ≤ sysMaxsize) →
    (best = none ∨ ∃ b, best = some b ∧ b ∈ big ∧ b.arrivalTime < sysMaxsize) →
    (selectNextAux e l earliest best = none ∨
      ∃ c, selectNextAux e l earliest best = some c ∧ c ∈ big ∧
        c.arrivalTime < sysMaxsize) := by
  induction l with
  | nil =>
    intro earliest best _ _ hbest
    rcases hbest with h | ⟨b, hb, hmem, harr⟩
    · exact Or.inl (by simpa [selectNextAux] using h)
    · exact Or.inr ⟨b, by simpa [selectNextAux] using hb, hmem, harr⟩
  | cons c rest ih =>
    intro earliest best hl hear hbest
    have hcl : c ∈ big := hl c (List.mem_cons_self _ _)
    have hrest : ∀ x ∈ rest, x ∈ big := fun x hx => hl x (List.mem_cons_of_mem _ hx)
    rw [selectNextAux]
    by_cases h1 : c.visited = true ∨ c.suppressed = true
    · rw [if_pos h1]
      exact ih earliest best hrest hear hbest
    · rw [if_neg h1]
      by_cases h2 : e < c.arrivalTime
      · rw [if_pos h2]
        exact ih earliest best hrest hear hbest
      · rw [if_neg h2]
        by_cases h3 : c.arrivalTime < earliest
        · rw [if_pos h3]
          exact ih c.arrivalTime (some c) hrest (le_of_lt (lt_of_lt_of_le h3 hear))
            (Or.inr ⟨c, rfl, hcl, lt_of_lt_of_le h3 hear⟩)
        · rw [if_neg h3]
          exact ih earliest best hrest hear hbest

theorem selectNext_spec (plan : List Contact) (e : ℚ) :
    selectNext plan e = none ∨
      ∃ c, selectNext plan e = some c ∧ c ∈ plan ∧ c.arrivalTime < sysMaxsize := by
  exact selectNextAux_spec e plan plan sysMaxsize none (fun c h => h) le_rfl (Or.inl rfl)

theorem dijkstraLoop_inv (dest : Int) (deadline size : ℚ) (stats : List CStat)
    (src : Int) :
    ∀ (fuel : Nat) (current : Contact) (plan : List Contact) (fin : Option CUid)
      (e : ℚ),
    plan.map Contact.stat = stats →
    NodeReach stats src current.toN →
    (∀ c ∈ plan, c.arrivalTime < sysMaxsize → NodeReach stats src c.frm) →
    (fin = none ∨ ∃ s ∈ stats, s.toEid = dest ∧ NodeReach stats src s.frm) →
    ((dijkstraLoop dest deadline size fuel current plan fin e).2 = none ∨
      ∃ s ∈ stats, s.toEid = dest ∧ NodeReach stats src s.frm) := by
  intro fuel
  induction fuel with
  | zero =>
    intro current plan fin e _ _ _ hfin
    rcases hfin with h | h
    · exact Or.inl (by simpa [dijkstraLoop] using h)
    · exact Or.inr h
  | succ n ih =>
    intro current plan fin e hstats hcur hplan hfin
    have hS : ∀ c ∈ plan, c.stat ∈ stats := by
      intro c hc
      rw [← hstats]
      exact List.mem_map.2 ⟨c, hc, rfl⟩
    obtain ⟨h1, h2, h3⟩ := relaxAll_inv stats src current dest deadline size plan
      fin e hcur hplan hS hfin
    rw [dijkstraLoop]
    have hstats2 : (markVisited (relaxAll current dest deadline size plan fin e).1
        current.uid).map Contact.stat = stats := by
      rw [markVisited_map_stat, h1, hstats]
    have hplan2 : ∀ c ∈ markVisited (relaxAll current dest deadline size plan fin e).1
        current.uid, c.arrivalTime < sysMaxsize → NodeReach stats src c.frm := by
      intro c hc harr
      obtain ⟨c₀, hc₀, harr', hfrm'⟩ := markVisited_mem _ _ _ hc
      rw [hfrm']
      exact h2 c₀ hc₀ (harr' ▸ harr)
    rcases selectNext_spec (markVisited (relaxAll current dest deadline size plan
        fin e).1 current.uid) (relaxAll current dest deadline size plan fin e).2.2
      with hsel | ⟨next, hsel, hmem, harr⟩
    · rw [hsel]
      exact h3
    · rw [hsel]
      have hnext : NodeReach stats src next.toN := by
        have hfrm : NodeReach stats src next.frm := hplan2 next hmem harr
        have hstatmem : next.stat ∈ stats := by
          rw [← hstats2]
          exact List.mem_map.2 ⟨next, hmem, rfl⟩
        exact NodeReach.step next.stat hstatmem hfrm
      exact ih next _ _ _ hstats2 hnext hplan2 h3

/-- C8: if the root contact's receiving node is absent from the contact
plan's adjacency map (it is neither a sender nor a receiver of any
contact), `cgr_dijkstra` treats it as a terminal node and returns no
route; and in general a returned route implies a contact path from the
root's node to the destination endpoint exists in the plan, i.e. `None`
is returned whenever no such path exists.  The uid hypothesis expresses
that the synthetic root object is not a member of the plan (Python
compares by object identity there). -/
theorem cgr_dijkstra_no_path (rootContact : Contact) (destination : Int)
    (plan : List Contact) (deadline size : ℚ)
    (huid : ∀ c ∈ plan, c.uid ≠ rootContact.uid) :
    (rootContact.toN ∉ plan.map Contact.frm ∧ rootContact.toN ∉ plan.map Contact.toN →
      cgrDijkstra rootContact destination plan deadline size = none) ∧
    (∀ r, cgrDijkstra rootContact destination plan deadline size = some r →
      ReachesEid (plan.map Contact.stat) rootContact.toN destination) := by
  constructor
  · intro h
    rw [cgrDijkstra, if_pos h.2]
  · intro r hr
    by_cases hguard : rootContact.toN ∉ plan.map Contact.toN
    · rw [cgrDijkstra, if_pos hguard] at hr
      cases hr
    · rw [cgrDijkstra, if_neg hguard] at hr
      dsimp only at hr
      set plan0 := plan.map fun c =>
        if c.uid = rootContact.uid then c else c.clearDijkstraArea with hplan0
      set root := if rootContact.toN ∈ rootContact.visitedNodes then rootContact
        else { rootContact with
                visitedNodes := rootContact.visitedNodes ++ [rootContact.toN] }
        with hroot
      have hstats : plan0.map Contact.stat = plan.map Contact.stat := by
        rw [hplan0, List.map_map]
        apply List.map_congr_left
        intro c _
        by_cases h : c.uid = rootContact.uid <;>
          simp [h, Contact.stat, Contact.clearDijkstraArea]
      have hcur : NodeReach (plan.map Contact.stat) rootContact.toN root.toN := by
        have : root.toN = rootContact.toN := by
          rw [hroot]
          split <;> rfl
        rw [this]
        exact NodeReach.base
      have hplanP : ∀ c ∈ plan0, c.arrivalTime < sysMaxsize →
          NodeReach (plan.map Contact.stat) rootContact.toN c.frm := by
        intro c hc harr
        obtain ⟨c₀, hc₀, he⟩ := List.mem_map.1 hc
        rw [if_neg (huid c₀ hc₀)] at he
        rw [← he] at harr
        simp [Contact.clearDijkstraArea] at harr
      have hloop := dijkstraLoop_inv destination deadline size
        (plan.map Contact.stat) rootContact.toN (plan0.length + 1) root plan0 none
        sysMaxsize hstats hcur hplanP (Or.inl rfl)
      rcases hloop with hnone | hsome
      · rw [hnone] at hr
        cases hr
      · exact hsome

/-- Witness for `cgr_dijkstra_no_path`: a root whose node 5 appears
nowhere in a one-contact plan, so the search returns no route. -/
theorem cgr_dijkstra_no_path_witness :
    cgrDijkstra (mkContact 5 5 none 0 20 1 1 0) 2 [mkContact 1 2 none 0 10 1 1 0]
      sysMaxsize 0 = none := by
  exact (cgr_dijkstra_no_path (mkContact 5 5 none 0 20 1 1 0) 2
    [mkContact 1 2 none 0 10 1 1 0] sysMaxsize 0
    (by norm_num [Contact.uid, mkContact])).1
    (by norm_num [mkContact])

theorem minMav_nonneg_iff (c : Contact) :
    0 ≤ minMav c ↔ 0 ≤ c.mav.m0 ∧ 0 ≤ c.mav.m1 ∧ 0 ≤ c.mav.m2 := by
  unfold minMav
  rw [le_min_iff, le_min_iff]
  tauto

theorem minMav_refund_le (c : Contact) (size : ℚ) (p : ℤ) (hs : 0 ≤ size) :
    minMav c ≤ minMav (contactMavUpdate c (-size) p) := by
  have hmin : ∀ a b a' b' : ℚ, a ≤ a' → b ≤ b' → min a b ≤ min a' b' :=
    fun a b a' b' h1 h2 => min_le_min h1 h2
  unfold minMav contactMavUpdate Mav.dec
  split_ifs <;>
    · apply hmin
      apply hmin
      all_goals
        dsimp only
        linarith

theorem mem_bufferAppend (capacity : ℚ) (buf : List Bundle) (x b : Bundle)
    (h : b ∈ bufferAppend capacity buf x) : b ∈ buf ∨ b = x := by
  unfold bufferAppend at h
  split at h
  · rw [List.mem_mergeSort] at h
    simpa using h
  · exact Or.inl h

theorem load_bufferAppend_le (capacity : ℚ) (buf : List Bundle) (x : Bundle)
    (hx : 0 ≤ x.size) :
    ((bufferAppend capacity buf x).map Bundle.size).sum
      ≤ (buf.map Bundle.size).sum + x.size := by
  unfold bufferAppend
  split
  · have hperm : ((buf ++ [x]).mergeSort fun a b => ! bundleLt b a).Perm (buf ++ [x]) :=
      List.mergeSort_perm _ _
    rw [(hperm.map Bundle.size).sum_eq]
    simp
  · linarith

theorem contribTo_nonneg (queue : List Bundle) (u : CUid) (q : ℤ)
    (h : ∀ b ∈ queue, 0 ≤ b.size) : 0 ≤ contribTo queue u q := by
  unfold contribTo
  apply List.sum_nonneg
  intro x hx
  obtain ⟨b, hb, rfl⟩ := List.mem_map.1 hx
  exact h b (List.mem_filter.1 hb).1

theorem contribTo_cons (b : Bundle) (rest : List Bundle) (u : CUid) (q : ℤ) :
    contribTo (b :: rest) u q =
      (if u ∈ b.route ∧ q ≤ b.priority then b.size else 0) + contribTo rest u q := by
  unfold contribTo
  by_cases h : u ∈ b.route ∧ q ≤ b.priority <;> simp [h]

theorem obLoop_invariant (uids : List CUid) (capacity : ℚ) :
    ∀ (queue : List Bundle) (plan : List Contact) (buffer ret : List Bundle),
    (∀ b ∈ queue, 0 ≤ b.size) →
    (∀ b ∈ queue, b.priority = 0 ∨ b.priority = 1 ∨ b.priority = 2) →
    (∀ c ∈ plan, c.uid ∉ uids → 0 ≤ minMav c) →
    (∀ c ∈ plan, c.uid ∈ uids → ∀ q, q = 0 ∨ q = 1 ∨ q = 2 →
      0 ≤ c.mav.get q + contribTo queue c.uid q) →
    ((buffer.map Bundle.size).sum + (queue.map Bundle.size).sum ≤ capacity) →
    ∃ plan' buffer' ret' leftover,
      obLoop uids capacity queue plan buffer ret
        = .ok (plan', buffer', ret', leftover) ∧
      (∀ c ∈ plan', 0 ≤ minMav c) ∧
      (∀ b ∈ buffer', b ∈ buffer ∨
        (b.obeyRoute = false ∧ ∃ u ∈ b.route, u ∈ uids)) ∧
      (∀ b ∈ ret', b ∈ ret ∨ (b ∈ queue ∧ ∀ u ∈ b.route, u ∉ uids)) ∧
      (∀ b ∈ queue, (∀ u ∈ b.route, u ∉ uids) → b ∈ ret' ∨ b ∈ leftover) ∧
      (∀ b ∈ leftover, b ∈ queue) ∧
      (∀ b ∈ ret, b ∈ ret') := by
  intro queue
  induction queue with
  | nil =>
    intro plan buffer ret _ _ hI1 hI2 _
    have hno : anyOverbooked plan uids = false := by
      rw [anyOverbooked, List.any_eq_false]
      intro c hc
      simp only [decide_eq_true_eq, not_and, not_lt]
      intro hu
      rw [minMav_nonneg_iff]
      have h0 := hI2 c hc hu 0 (by norm_num)
      have h1 := hI2 c hc hu 1 (by norm_num)
      have h2 := hI2 c hc hu 2 (by norm_num)
      simp only [contribTo, List.filter_nil, List.map_nil, List.sum_nil, add_zero,
        Mav.get] at h0 h1 h2
      norm_num at h0 h1 h2
      exact ⟨h0, h1, h2⟩
    refine ⟨plan, buffer, ret, [], ?_, ?_, ?_, ?_, ?_, ?_, ?_⟩
    · rw [obLoop, hno]
      rfl
    · intro c hc
      by_cases hu : c.uid ∈ uids
      · rw [anyOverbooked, List.any_eq_false] at hno
        have := hno c hc
        simp only [decide_eq_true_eq, not_and, not_lt] at this
        exact this hu
      · exact hI1 c hc hu
    · exact fun b hb => Or.inl hb
    · exact fun b hb => Or.inl hb
    · intro b hb
      cases hb
    · intro b hb
      cases hb
    · exact fun b hb => hb
  | cons b rest ih =>
    intro plan buffer ret hsz hpr hI1 hI2 hcap
    have hbsz : 0 ≤ b.size := hsz b (List.mem_cons_self _ _)
    have hbpr : b.priority = 0 ∨ b.priority = 1 ∨ b.priority = 2 :=
      hpr b (List.mem_cons_self _ _)
    have hszr : ∀ x ∈ rest, 0 ≤ x.size := fun x hx => hsz x (List.mem_cons_of_mem _ hx)
    have hprr : ∀ x ∈ rest, x.priority = 0 ∨ x.priority = 1 ∨ x.priority = 2 :=
      fun x hx => hpr x (List.mem_cons_of_mem _ hx)
    by_cases hob : anyOverbooked plan uids = true
    · by_cases hint : b.route.any (fun u => decide (u ∈ uids)) = true
      · -- intersecting pop: refund and return to buffer
        have hroute : b.route ≠ [] := by
          intro h
          rw [h] at hint
          simp [List.any] at hint
        have hrefund : refundRoute plan b.route b.size b.priority =
            .ok (plan.map fun c =>
              if c.uid ∈ b.route then contactMavUpdate c (-b.size) b.priority
              else c) := by
          rw [refundRoute, if_pos hbpr]
        have hI1' : ∀ c ∈ (plan.map fun c =>
            if c.uid ∈ b.route then contactMavUpdate c (-b.size) b.priority
            else c), c.uid ∉ uids → 0 ≤ minMav c := by
          intro c hc hu
          obtain ⟨c₀, hc₀, rfl⟩ := List.mem_map.1 hc
          by_cases hr : c₀.uid ∈ b.route
          · rw [if_pos hr]
            rw [if_pos hr] at hu
            refine le_trans (hI1 c₀ hc₀ hu) (minMav_refund_le c₀ b.size b.priority hbsz)
          · rw [if_neg hr]
            rw [if_neg hr] at hu
            exact hI1 c₀ hc₀ hu
        have hI2' : ∀ c ∈ (plan.map fun c =>
            if c.uid ∈ b.route then contactMavUpdate c (-b.size) b.priority
            else c), c.uid ∈ uids → ∀ q, q = 0 ∨ q = 1 ∨ q = 2 →
            0 ≤ c.mav.get q + contribTo rest c.uid q := by
          intro c hc hu q hq
          obtain ⟨c₀, hc₀, rfl⟩ := List.mem_map.1 hc
          by_cases hr : c₀.uid ∈ b.route
          · rw [if_pos hr]
            rw [if_pos hr] at hu
            have hbase := hI2 c₀ hc₀ hu q hq
            rw [contribTo_cons] at hbase
            have hget : (contactMavUpdate c₀ (-b.size) b.priority).mav.get q
                = c₀.mav.get q - (if q ≤ b.priority then -b.size else 0) :=
              mavGet_dec c₀.mav b.priority (-b.size) q hbpr hq
            have huid : (contactMavUpdate c₀ (-b.size) b.priority).uid = c₀.uid := rfl
            rw [huid, hget]
            by_cases hql : q ≤ b.priority
            · rw [if_pos hql]
              rw [if_pos ⟨hr, hql⟩] at hbase
              linarith
            · rw [if_neg hql]
              rw [if_neg (fun hand => hql hand.2)] at hbase
              linarith
          · rw [if_neg hr]
            rw [if_neg hr] at hu
            have hbase := hI2 c₀ hc₀ hu q hq
            rw [contribTo_cons, if_neg (fun hand => hr hand.1)] at hbase
            linarith
        have hcap' : (((bufferAppend capacity buffer
            { b with obeyRoute := false }).map Bundle.size).sum)
            + (rest.map Bundle.size).sum ≤ capacity := by
          have hle := load_bufferAppend_le capacity buffer
            { b with obeyRoute := false } hbsz
          simp only [List.map_cons, List.sum_cons] at hcap
          have : Bundle.size { b with obeyRoute := false } = b.size := rfl
          rw [this] at hle
          linarith
        obtain ⟨plan', buffer', ret', leftover, hok, h2, h3, h4, h5, h6, h7⟩ :=
          ih _ (bufferAppend capacity buffer { b with obeyRoute := false }) ret
            hszr hprr hI1' hI2' hcap'
        refine ⟨plan', buffer', ret', leftover, ?_, h2, ?_, ?_, ?_, ?_, h7⟩
        · rw [obLoop, if_pos hob]
          simp only [hint, if_true, if_neg hroute, hrefund]
          exact hok
        · intro x hx
          rcases h3 x hx with hmem | hnew
          · rcases mem_bufferAppend capacity buffer _ x hmem with h | h
            · exact Or.inl h
            · refine Or.inr ⟨by rw [h], ?_⟩
              rw [List.any_eq_true] at hint
              obtain ⟨u, hu, hdec⟩ := hint
              rw [h]
              exact ⟨u, hu, by simpa using hdec⟩
          · exact Or.inr hnew
        · intro x hx
          rcases h4 x hx with h | ⟨hmem, hno⟩
          · exact Or.inl h
          · exact Or.inr ⟨List.mem_cons_of_mem _ hmem, hno⟩
        · intro x hx hno
          rcases List.mem_cons.1 hx with rfl | hx'
          · exfalso
            rw [List.any_eq_true] at hint
            obtain ⟨u, hu, hdec⟩ := hint
            exact hno u hu (by simpa using hdec)
          · exact h5 x hx' hno
        · intro x hx
          exact List.mem_cons_of_mem _ (h6 x hx)
      · -- non-intersecting pop: stash in return_to_obq
        have hintf : (b.route.any fun u => decide (u ∈ uids)) = false := by
          simpa using hint
        have hnomem : ∀ u ∈ b.route, u ∉ uids := by
          rw [List.any_eq_false] at hintf
          intro u hu
          have := hintf u hu
          simpa using this
        have hI2' : ∀ c ∈ plan, c.uid ∈ uids → ∀ q, q = 0 ∨ q = 1 ∨ q = 2 →
            0 ≤ c.mav.get q + contribTo rest c.uid q := by
          intro c hc hu q hq
          have hbase := hI2 c hc hu q hq
          rw [contribTo_cons, if_neg (fun hand => hnomem c.uid hand.1 hu)] at hbase
          linarith
        have hcap' : (buffer.map Bundle.size).sum + (rest.map Bundle.size).sum
            ≤ capacity := by
          simp only [List.map_cons, List.sum_cons] at hcap
          linarith
        obtain ⟨plan', buffer', ret', leftover, hok, h2, h3, h4, h5, h6, h7⟩ :=
          ih plan buffer (ret ++ [b]) hszr hprr hI1 hI2' hcap'
        refine ⟨plan', buffer', ret', leftover, ?_, h2, h3, ?_, ?_, ?_, ?_⟩
        · rw [obLoop, if_pos hob]
          simp only [hintf, Bool.false_eq_true, if_false]
          exact hok
        · intro x hx
          rcases h4 x hx with h | ⟨hmem, hno⟩
          · rcases List.mem_append.1 h with h' | h'
            · exact Or.inl h'
            · rw [List.mem_singleton.1 h']
              exact Or.inr ⟨List.mem_cons_self _ _, hnomem⟩
          · exact Or.inr ⟨List.mem_cons_of_mem _ hmem, hno⟩
        · intro x hx hno
          rcases List.mem_cons.1 hx with rfl | hx'
          · exact Or.inl (h7 x (List.mem_append.2 (Or.inr (List.mem_singleton.2 rfl))))
          · exact h5 x hx' hno
        · intro x hx
          exact List.mem_cons_of_mem _ (h6 x hx)
        · intro x hx
          exact h7 x (List.mem_append.2 (Or.inl hx))
    · -- no over-booked contact remains: exit
      have hob' : anyOverbooked plan uids = false := by
        simpa using hob
      refine ⟨plan, buffer, ret, b :: rest, ?_, ?_, ?_, ?_, ?_, ?_, ?_⟩
      · rw [obLoop, hob']
        rfl
      · intro c hc
        by_cases hu : c.uid ∈ uids
        · rw [anyOverbooked, List.any_eq_false] at hob'
          have := hob' c hc
          simp only [decide_eq_true_eq, not_and, not_lt] at this
          exact this hu
        · exact hI1 c hc hu
      · exact fun x hx => Or.inl hx
      · exact fun x hx => Or.inl hx
      · exact fun x hx _ => Or.inr hx
      · exact fun x hx => hx
      · exact fun x hx => hx

theorem yensLoop_length (dest : Int) :
    ∀ (k : Nat) (st : Contact × List Contact × List Route × List Route),
    (yensLoop dest k st).2.2.1.length ≤ st.2.2.1.length + k := by
  intro k
  induction k with
  | zero =>
    intro st
    simp [yensLoop]
  | succ n ih =>
    intro st
    rw [yensLoop]
    split
    · simp
    · split
      · simp
      · refine le_trans (ih _) ?_
        simp only [List.length_append, List.length_singleton]
        omega

/-- C4: the claimed bound "at most K routes" is false for invocations
passing cached routes: `cgr_yens` with `num_routes = 1` and two cached
routes runs zero loop iterations and returns both cached routes, so the
result exceeds K.  The loop never compares the accumulated route count
against K. -/
theorem cgr_yens_count_claim_counterexample :
    1 < (cgrYens 0 3 [] 0 1
      [routeOfHops [mkContact 0 1 none 0 10 1 1 0],
       routeOfHops [mkContact 0 2 none 0 10 1 1 0]]).length := by
  unfold cgrYens
  rw [if_neg (by simp)]
  simp [yensLoop]

/-- C4 (amended): `cgr_yens` with `num_routes = K` returns at most
`max 1 (number of cached routes) + (K - 1)` routes: the accepted list
starts from the cached routes (or the single Dijkstra route, or is empty
when no route exists), each of the `K - 1` loop iterations adds at most
one route, and the search stops early only when the candidate set is
empty — there is no early stop on reaching K, so with an empty cache the
result has at most K routes, but a cached list may make the result exceed
K. -/
theorem cgr_yens_route_count (src dest : Int) (contactPlan : List Contact)
    (tNow : ℚ) (numRoutes : Nat) (routesIn : List Route) :
    (cgrYens src dest contactPlan tNow numRoutes routesIn).length
      ≤ max 1 routesIn.length + (numRoutes - 1) := by
  unfold cgrYens
  dsimp only
  split
  · next hemp =>
    split
    · subst hemp
      simp
    · rw [List.length_map]
      refine le_trans (yensLoop_length dest (numRoutes - 1) _) ?_
      have h1 : (1 : Nat) ≤ max 1 routesIn.length := le_max_left _ _
      simp only [List.length_singleton]
      omega
  · rw [List.length_map]
    refine le_trans (yensLoop_length dest (numRoutes - 1) _) ?_
    have h1 : routesIn.length ≤ max 1 routesIn.length := le_max_right _ _
    simp only [List.length_map]
    omega

theorem contribTo_perm (l1 l2 : List Bundle) (u : CUid) (q : ℤ) (h : l1.Perm l2) :
    contribTo l1 u q = contribTo l2 u q := by
  unfold contribTo
  rw [((h.filter _).map _).sum_eq]

/-- C6: after a round of bundle assignment (expressed by the coverage
hypothesis: each over-booked contact's per-priority deficit is covered by
the sizes of the queued bundles routed over it, which holds because every
queued bundle decremented `mav[0..priority]` along its full route when it
was enqueued), `_contact_over_booking` terminates without error, and on
termination no contact of the plan has `min(mav) < 0`; the union of the
outbound queues is processed in the bundle-preemption sort order from its
lowest-ranked end (definitionally, see `contactOverBooking`), every
bundle moved to the buffer has a route hop among the initially
over-booked contacts (its mav refund is the `refundRoute` applied there,
and its `obey_route` is cleared), and every queued bundle whose route
meets no over-booked contact remains in the outbound queue.  The size,
priority and capacity hypotheses state that queued bundles carry valid
priorities and non-negative sizes and that the buffer (default capacity
`sys.maxsize`) can hold them. -/
theorem contact_over_booking_correct (plan : List Contact) (obqAll : List Bundle)
    (capacity : ℚ) (buffer : List Bundle)
    (hsz : ∀ b ∈ obqAll, 0 ≤ b.size)
    (hpr : ∀ b ∈ obqAll, b.priority = 0 ∨ b.priority = 1 ∨ b.priority = 2)
    (hcap : (buffer.map Bundle.size).sum + (obqAll.map Bundle.size).sum ≤ capacity)
    (hcover : ∀ c ∈ plan, minMav c < 0 → ∀ q, q = 0 ∨ q = 1 ∨ q = 2 →
      0 ≤ c.mav.get q + contribTo obqAll c.uid q) :
    ∃ plan' buffer' queue',
      contactOverBooking plan obqAll capacity buffer
        = .ok (plan', buffer', queue') ∧
      (∀ c ∈ plan', 0 ≤ minMav c) ∧
      (∀ b ∈ buffer', b ∈ buffer ∨ (b.obeyRoute = false ∧
        ∃ u ∈ b.route, ∃ c ∈ plan, c.uid = u ∧ minMav c < 0)) ∧
      (∀ b ∈ obqAll, (∀ u ∈ b.route, ∀ c ∈ plan, c.uid = u → 0 ≤ minMav c) →
        b ∈ queue') := by
  unfold contactOverBooking
  dsimp only
  by_cases hemp : plan.filter (fun c => decide (minMav c < 0)) = []
  · rw [if_pos hemp]
    refine ⟨plan, buffer, obqAll, rfl, ?_, fun b hb => Or.inl hb, fun b hb _ => hb⟩
    intro c hc
    have := List.filter_eq_nil.1 hemp c hc
    simp only [decide_eq_true_eq] at this
    linarith [not_lt.1 this]
  · rw [if_neg hemp]
    have hperm : ((obqAll.mergeSort fun a b => ! bundleLt b a).reverse).Perm obqAll :=
      (List.reverse_perm _).trans (List.mergeSort_perm _ _)
    have hsz' : ∀ b ∈ (obqAll.mergeSort fun a b => ! bundleLt b a).reverse,
        0 ≤ b.size := fun b hb => hsz b (hperm.mem_iff.1 hb)
    have hpr' : ∀ b ∈ (obqAll.mergeSort fun a b => ! bundleLt b a).reverse,
        b.priority = 0 ∨ b.priority = 1 ∨ b.priority = 2 :=
      fun b hb => hpr b (hperm.mem_iff.1 hb)
    have hI1 : ∀ c ∈ plan,
        c.uid ∉ (plan.filter fun c => decide (minMav c < 0)).map Contact.uid →
        0 ≤ minMav c := by
      intro c hc hu
      by_contra hneg
      push_neg at hneg
      exact hu (List.mem_map.2 ⟨c, List.mem_filter.2 ⟨hc, by simpa using hneg⟩, rfl⟩)
    have hI2 : ∀ c ∈ plan,
        c.uid ∈ (plan.filter fun c => decide (minMav c < 0)).map Contact.uid →
        ∀ q, q = 0 ∨ q = 1 ∨ q = 2 →
        0 ≤ c.mav.get q +
          contribTo ((obqAll.mergeSort fun a b => ! bundleLt b a).reverse) c.uid q := by
      intro c hc _ q hq
      rw [contribTo_perm _ obqAll _ _ hperm]
      by_cases hneg : minMav c < 0
      · exact hcover c hc hneg q hq
      · have hq0 : 0 ≤ c.mav.get q := by
          have := (minMav_nonneg_iff c).1 (not_lt.1 hneg)
          rcases hq with rfl | rfl | rfl <;> simp [Mav.get, this.1, this.2.1, this.2.2]
        have := contribTo_nonneg obqAll c.uid q hsz
        linarith
    have hcap' : (buffer.map Bundle.size).sum +
        (((obqAll.mergeSort fun a b => ! bundleLt b a).reverse).map Bundle.size).sum
        ≤ capacity := by
      rw [(hperm.map Bundle.size).sum_eq]
      exact hcap
    obtain ⟨plan', buffer', ret', leftover, hok, h2, h3, h5, h6, h7, h8⟩ :=
      obLoop_invariant ((plan.filter fun c => decide (minMav c < 0)).map Contact.uid)
        capacity ((obqAll.mergeSort fun a b => ! bundleLt b a).reverse) plan buffer []
        hsz' hpr' hI1 hI2 hcap'
    refine ⟨plan', buffer', leftover.reverse ++ ret', ?_, h2, ?_, ?_⟩
    · rw [hok]
    · intro b hb
      rcases h3 b hb with h | ⟨hobey, u, hu, humem⟩
      · exact Or.inl h
      · obtain ⟨c₀, hc₀, rfl⟩ := List.mem_map.1 humem
        have hfil := List.mem_filter.1 hc₀
        exact Or.inr ⟨hobey, c₀.uid, hu, c₀, hfil.1, rfl, by simpa using hfil.2⟩
    · intro b hb hno
      have hnu : ∀ u ∈ b.route,
          u ∉ (plan.filter fun c => decide (minMav c < 0)).map Contact.uid := by
        intro u hu humem
        obtain ⟨c₀, hc₀, rfl⟩ := List.mem_map.1 humem
        have hfil := List.mem_filter.1 hc₀
        have : 0 ≤ minMav c₀ := hno c₀.uid hu c₀ hfil.1 rfl
        have hlt : minMav c₀ < 0 := by simpa using hfil.2
        linarith
      rcases h6 b (hperm.mem_iff.2 hb) hnu with h | h
      · exact List.mem_append.2 (Or.inr h)
      · exact List.mem_append.2 (Or.inl (List.mem_reverse.2 h))

/-- Witness for `contact_over_booking_correct`: one contact 1→2 of
volume 2 over-booked by a priority-2 reservation of size 3, one queued
bundle of size 3 routed over it; the loop refunds the contact and moves
the bundle to the buffer. -/
theorem contact_over_booking_correct_witness :
    ∃ plan' buffer' queue',
      contactOverBooking
        [contactMavUpdate (mkContact 1 2 none 0 2 1 1 0) 3 2]
        [{ src := 1, dst := 3, targetId := 0, createdAt := 0, size := 3,
           deadline := 1000, priority := 2, critical := false, fragment := true,
           obeyRoute := true, previousNode := none, hopCount := 0,
           route := [⟨1, 2, 0⟩], age := 0 }] 100 []
        = .ok (plan', buffer', queue') ∧
      (∀ c ∈ plan', 0 ≤ minMav c) := by
  obtain ⟨plan', buffer', queue', hok, h2, _, _⟩ :=
    contact_over_booking_correct
      [contactMavUpdate (mkContact 1 2 none 0 2 1 1 0) 3 2]
      [{ src := 1, dst := 3, targetId := 0, createdAt := 0, size := 3,
         deadline := 1000, priority := 2, critical := false, fragment := true,
         obeyRoute := true, previousNode := none, hopCount := 0,
         route := [⟨1, 2, 0⟩], age := 0 }] 100 []
      (by norm_num) (by norm_num)
      (by norm_num)
      (by
        intro c hc hneg q hq
        rw [List.mem_singleton.1 hc]
        rcases hq with rfl | rfl | rfl <;>
          norm_num [contribTo, contactMavUpdate, mkContact, Mav.dec, Mav.get,
            Contact.uid])
  exact ⟨plan', buffer', queue', hok, h2⟩

/-- C9: an MSR-pinned bundle (`obey_route` set) is never handed to
`_bundle_send` during a contact whose uid differs from the first entry of
its route: a send implies the route head equals the contact's uid, and
whenever the head differs (and is a known contact, else Python raises
KeyError before any send) the bundle is returned to the buffer. -/
theorem msr_pinning (contact : Contact) (tNow : ℚ) (cpDict : List Contact)
    (bundle : Bundle) (hobey : bundle.obeyRoute = true) :
    (bundleForwardAction contact tNow cpDict bundle = some .sendBundle →
      bundle.route.head? = some contact.uid) ∧
    (∀ h rest, bundle.route = h :: rest → h ≠ contact.uid →
      ∀ nh, planLookup cpDict h = some nh →
        bundleForwardAction contact tNow cpDict bundle = some .returnToBuffer) := by
  have main : ∀ h rest, bundle.route = h :: rest → h ≠ contact.uid →
      ∀ nh, planLookup cpDict h = some nh →
        bundleForwardAction contact tNow cpDict bundle = some .returnToBuffer := by
    intro h rest hroute hne nh hlook
    unfold bundleForwardAction
    by_cases ht : contact.stop - tNow < bundle.size / contact.rate
    · simp [ht]
    · by_cases hto : nh.toN ≠ contact.toN
      · simp [ht, hroute, hlook, hto]
      · simp [ht, hroute, hlook, hto, hobey, hne]
  refine ⟨?_, main⟩
  intro hsend
  cases hroute : bundle.route with
  | nil =>
    refine absurd hsend ?_
    unfold bundleForwardAction
    by_cases ht : contact.stop - tNow < bundle.size / contact.rate
    · simp [ht]
    · simp [ht, hroute]
  | cons h rest =>
    by_cases hne : h = contact.uid
    · simp [hroute, hne]
    · exfalso
      cases hlook : planLookup cpDict h with
      | none =>
        refine absurd hsend ?_
        unfold bundleForwardAction
        by_cases ht : contact.stop - tNow < bundle.size / contact.rate
        · simp [ht]
        · simp [ht, hroute, hlook]
      | some nh =>
        have hret := main h rest hroute hne nh hlook
        rw [hret] at hsend
        simp at hsend

/-- Witness for `msr_pinning`: an MSR-pinned bundle whose route starts
with a later contact 1→2 (uid start 5) is returned to the buffer during
the contact 1→2 starting at 0, even though the receivers agree. -/
theorem msr_pinning_witness :
    bundleForwardAction (mkContact 1 2 none 0 10 1 1 0) 0
      [mkContact 1 2 none 5 10 1 1 0]
      { src := 0, dst := 3, targetId := 0, createdAt := 0, size := 1, deadline := 1000,
        priority := 0, critical := false, fragment := true, obeyRoute := true,
        previousNode := none, hopCount := 0, route := [⟨1, 2, 5⟩], age := 0 }
      = some .returnToBuffer := by
  refine (msr_pinning (mkContact 1 2 none 0 10 1 1 0) 0
    [mkContact 1 2 none 5 10 1 1 0]
    { src := 0, dst := 3, targetId := 0, createdAt := 0, size := 1, deadline := 1000,
      priority := 0, critical := false, fragment := true, obeyRoute := true,
      previousNode := none, hopCount := 0, route := [⟨1, 2, 5⟩], age := 0 }
    rfl).2 ⟨1, 2, 5⟩ [] rfl ?_ (mkContact 1 2 none 5 10 1 1 0) ?_
  · norm_num [Contact.uid, mkContact, CUid.mk.injEq]
  · norm_num [planLookup, mkContact, Contact.uid, List.find?]

/-- C5 (code bug): `candidate_routes` does not exclude routes containing
a hop whose receiver is the current node.  The back-edge `continue` in
the 3.2.6.9 c) loop only advances that inner loop (the source's FIXME
admits "This doesn't actually do anything"), so a route 1→2, 2→1, 1→3
with a hop received by the current node 1 passes the screening and is
returned as a candidate. -/
theorem candidate_routes_back_edge_bug :
    routeOfHops [mkContact 1 2 none 0 100 1 1 0, mkContact 2 1 none 0 100 1 1 0,
        mkContact 1 3 none 0 100 1 1 0] ∈
      candidateRoutes 0 1
        [mkContact 1 2 none 0 100 1 1 0, mkContact 2 1 none 0 100 1 1 0,
          mkContact 1 3 none 0 100 1 1 0]
        { src := 1, dst := 3, targetId := 0, createdAt := 0, size := 1,
          deadline := 1000, priority := 0, critical := false, fragment := true,
          obeyRoute := false, previousNode := none, hopCount := 0, route := [],
          age := 0 }
        [routeOfHops [mkContact 1 2 none 0 100 1 1 0, mkContact 2 1 none 0 100 1 1 0,
          mkContact 1 3 none 0 100 1 1 0]] [] [] ∧
    (mkContact 2 1 none 0 100 1 1 0).toN = 1 := by
  constructor
  · rw [candidateRoutes, List.mem_mergeSort]
    apply List.mem_filter.2
    refine ⟨List.mem_singleton.2 rfl, ?_⟩
    norm_num [routeIsCandidate, Route.bdt, bdtOfHops, applicableBacklog,
      backlogRelief, patOf, patFrom, routeFbts, fbtsFrom, evlMinFrom,
      suffixMinStop, routeOfHops, mkContact, Mav.get, sysMaxsize]
  · rfl

/-- C7: the claimed preemption order is false on the code, in two ways.
An expedited non-critical bundle compares less-than (ranks ahead of) a
critical bulk bundle, contradicting "critical bundles before non-critical
ones"; and on equal priority and created_at the bundle with MORE hops
completed ranks ahead, contradicting "fewer hops completed". -/
theorem bundle_lt_claim_counterexample :
    bundleLt
      { src := 0, dst := 1, targetId := 0, createdAt := 0, size := 1, deadline := 1000,
        priority := 2, critical := false, fragment := true, obeyRoute := false,
        previousNode := none, hopCount := 0, route := [], age := 0 }
      { src := 0, dst := 1, targetId := 0, createdAt := 0, size := 1, deadline := 1000,
        priority := 0, critical := true, fragment := true, obeyRoute := false,
        previousNode := none, hopCount := 0, route := [], age := 0 } = true ∧
    bundleLt
      { src := 0, dst := 1, targetId := 0, createdAt := 0, size := 1, deadline := 1000,
        priority := 0, critical := false, fragment := true, obeyRoute := false,
        previousNode := none, hopCount := 0, route := [], age := 0 }
      { src := 0, dst := 1, targetId := 0, createdAt := 0, size := 1, deadline := 1000,
        priority := 0, critical := false, fragment := true, obeyRoute := false,
        previousNode := none, hopCount := 5, route := [], age := 0 } = false ∧
    bundleLt
      { src := 0, dst := 1, targetId := 0, createdAt := 0, size := 1, deadline := 1000,
        priority := 0, critical := false, fragment := true, obeyRoute := false,
        previousNode := none, hopCount := 5, route := [], age := 0 }
      { src := 0, dst := 1, targetId := 0, createdAt := 0, size := 1, deadline := 1000,
        priority := 0, critical := false, fragment := true, obeyRoute := false,
        previousNode := none, hopCount := 0, route := [], age := 0 } = true := by
  refine ⟨?_, ?_, ?_⟩ <;> norm_num [bundleLt]

/-- C7 (amended): `Bundle.__lt__` ranks a bundle ahead of another exactly
when: it is critical and the other is not; or both are critical and it is
older in age; or it has strictly higher priority (regardless of the other
bundle's critical flag); or, on equal priority, it has an older
`created_at`; or, on equal priority and `created_at`, it has MORE hops
completed.  In particular criticality does not dominate priority, and the
final tie-break prefers more-travelled bundles. -/
theorem bundle_lt_characterisation (a b : Bundle) :
    bundleLt a b = true ↔
      (a.critical = true ∧ b.critical = false) ∨
      (a.critical = true ∧ b.critical = true ∧ b.age < a.age) ∨
      b.priority < a.priority ∨
      (a.priority = b.priority ∧ a.createdAt < b.createdAt) ∨
      (a.priority = b.priority ∧ a.createdAt = b.createdAt ∧ b.hopCount < a.hopCount) := by
  unfold bundleLt
  split_ifs with h1 h2 h3 h4 h5 <;> simp_all

/-- Witness for `contact_resource_update_frame` at a one-contact plan,
size 3, priority 1 (valid) and priority 7 (ValueError). -/
theorem contact_resource_update_frame_witness :
    (∃ plan', contactResourceUpdate [mkContact 1 2 none 0 10 1 1 0] [0] 3 1
        = .ok plan' ∧ plan'.length = 1) ∧
    contactResourceUpdate [mkContact 1 2 none 0 10 1 1 0] [0] 3 7
      = .error "Bundle priority not defined in valid range" := by
  constructor
  · obtain ⟨plan', h1, h2, _⟩ :=
      (contact_resource_update_frame [mkContact 1 2 none 0 10 1 1 0] [0] 3 1).1
        (by norm_num)
    exact ⟨plan', h1, by simpa using h2⟩
  · exact (contact_resource_update_frame [mkContact 1 2 none 0 10 1 1 0] [0] 3 7).2
      (by norm_num)

end Sim
